import Mathlib

set_option allowUnsafeReducibility true
attribute [local semireducible] Rat.mul Rat.inv Rat.add Rat.sub Rat.blt
set_option maxRecDepth 100000

/-!
Verification of the column-mapping engine (mappingEngine.js).

The definitions below are a shallow embedding of the ULTRA AGGRESSIVE
mapping engine: the exported generateMappingSuggestions (three phases),
validateMappingSuggestions, generateMappingSummary, and the scorer
calculateUltraAggressiveMatchScore together with all of its helper
strategies.  JavaScript strings are modelled as lists of characters and
JavaScript floating point numbers as rationals.
-/

/-- JavaScript strings, modelled as lists of characters. -/
abbrev Str := List Char

/-- JS String.prototype.toLowerCase, ASCII fragment. -/
def jsToLower (s : Str) : Str := s.map Char.toLower

/-- JS String.prototype.trim: strip whitespace from both ends. -/
def jsTrim (s : Str) : Str :=
  ((s.dropWhile Char.isWhitespace).reverse.dropWhile Char.isWhitespace).reverse

/-- The (name or empty).toLowerCase().trim() normalisation the scorer applies to both names. -/
def normName (s : Str) : Str := jsTrim (jsToLower s)

/-- JS hay.includes(needle): substring containment.  The empty needle is contained in everything. -/
def jsIncludes : Str → Str → Bool
  | [], needle => needle.isEmpty
  | hay@(_ :: t), needle => needle.isPrefixOf hay || jsIncludes t needle

/-- Membership of a string in a JS Set of strings (modelled as a list). -/
def memStr (used : List Str) (x : Str) : Bool := used.any (fun y => decide (y = x))

/-- Separator characters of the word-split regular expression: underscore, whitespace, dash. -/
def isSepChar (c : Char) : Bool := c = '_' || c.isWhitespace || c = '-'

/-- Accumulator pass of splitWords: collect the current word in reverse,
emitting it whenever a separator run or the end of the string is reached. -/
def splitWordsAux : Str → Str → List Str
  | [], acc => if acc = [] then [] else [acc.reverse]
  | c :: rest, acc =>
    if isSepChar c then
      if acc = [] then splitWordsAux rest []
      else acc.reverse :: splitWordsAux rest []
    else splitWordsAux rest (c :: acc)

/-- Split on runs of separator characters and keep the nonempty words, as in
name.split of the separator class followed by the nonempty filter. -/
def splitWords (s : Str) : List Str := splitWordsAux s []

/-- Inner recursion of the edit distance: with the distances from the tail xs
already available as a function, extend by the single character x.  This is
the standard recurrence that the dynamic-programming matrix of the source
implements (equal heads reuse the diagonal, otherwise one plus the minimum of
substitution, insertion and deletion). -/
def levGo (dxs : Str → Nat) (x : Char) (xsLen : Nat) : Str → Nat
  | [] => xsLen + 1
  | y :: ys => if x = y then dxs ys
      else 1 + min (dxs ys) (min (levGo dxs x xsLen ys) (dxs (y :: ys)))

/-- Levenshtein edit distance between two strings. -/
def levenshteinDistance : Str → Str → Nat
  | [], ys => ys.length
  | x :: xs, ys => levGo (levenshteinDistance xs) x xs.length ys

/-- calculateUltraFuzzyScore: normalised edit-distance similarity with a 30
percent boost, capped at 1.  Empty (falsy) strings score 0. -/
def calculateUltraFuzzyScore (str1 str2 : Str) : ℚ :=
  if str1 = [] || str2 = [] then 0
  else if str1 = str2 then 1
  else
    let longer := if str1.length > str2.length then str1 else str2
    let shorter := if str1.length > str2.length then str2 else str1
    if longer.length = 0 then 1
    else
      let distance := levenshteinDistance longer shorter
      let similarity : ℚ := ((longer.length : ℚ) - (distance : ℚ)) / (longer.length : ℚ)
      min (similarity * (13/10)) 1

/-- countCommonCharacters: how many characters of the first string occur in the second. -/
def countCommonCharacters (str1 str2 : Str) : Nat :=
  (str1.filter (fun c => str2.any (fun d => decide (d = c)))).length

/-- The ultraSwimmingMaps table of calculateUltraSwimmingMatch. -/
def ultraSwimmingMaps : List (Str × List Str) :=
  [ (("name").toList, [("name").toList, ("athlete").toList, ("swimmer").toList,
      ("participant").toList, ("competitor").toList, ("person").toList,
      ("first").toList, ("last").toList]),
    (("time").toList, [("time").toList, ("duration").toList, ("finish").toList,
      ("result").toList, ("performance").toList, ("seconds").toList,
      ("sec").toList, ("final").toList]),
    (("place").toList, [("place").toList, ("rank").toList, ("position").toList,
      ("finish").toList, ("pos").toList, ("placement").toList, ("order").toList]),
    (("heat").toList, [("heat").toList, ("session").toList, ("round").toList,
      ("group").toList, ("series").toList, ("set").toList]),
    (("lane").toList, [("lane").toList, ("position").toList, ("track").toList,
      ("channel").toList, ("line").toList, ("path").toList]),
    (("event").toList, [("event").toList, ("race").toList, ("competition").toList,
      ("contest").toList, ("category").toList, ("type").toList]),
    (("team").toList, [("team").toList, ("club").toList, ("country").toList,
      ("nation").toList, ("organization").toList, ("group").toList, ("squad").toList]),
    (("distance").toList, [("distance").toList, ("length").toList, ("meters").toList,
      ("yards").toList, ("m").toList, ("y").toList, ("dist").toList]),
    (("reaction").toList, [("reaction").toList, ("start").toList, ("response").toList,
      ("rt").toList, ("react").toList, ("begin").toList]),
    (("lap").toList, [("lap").toList, ("split").toList, ("intermediate").toList,
      ("segment").toList, ("partial").toList]),
    (("dq").toList, [("dq").toList, ("disqualified").toList, ("disqualification").toList,
      ("invalid").toList, ("false").toList]),
    (("a").toList, [("athlete").toList, ("name").toList, ("age").toList]),
    (("b").toList, [("best").toList, ("time").toList, ("result").toList]),
    (("c").toList, [("club").toList, ("team").toList, ("country").toList]),
    (("d").toList, [("distance").toList, ("dq").toList, ("duration").toList]),
    (("e").toList, [("event").toList, ("end").toList]),
    (("f").toList, [("finish").toList, ("final").toList, ("first").toList]),
    (("g").toList, [("group").toList, ("gender").toList]),
    (("h").toList, [("heat").toList, ("hour").toList]),
    (("i").toList, [("id").toList, ("index").toList]),
    (("j").toList, [("junior").toList]),
    (("k").toList, [("kilometer").toList]),
    (("l").toList, [("lane").toList, ("lap").toList, ("last").toList]),
    (("m").toList, [("meters").toList, ("minutes").toList]),
    (("n").toList, [("name").toList, ("number").toList]),
    (("o").toList, [("order").toList]),
    (("p").toList, [("place").toList, ("pool").toList, ("points").toList]),
    (("q").toList, [("qualify").toList, ("quarter").toList]),
    (("r").toList, [("rank").toList, ("reaction").toList, ("result").toList]),
    (("s").toList, [("swimmer").toList, ("stroke").toList, ("start").toList]),
    (("t").toList, [("time").toList, ("team").toList]),
    (("u").toList, [("under").toList]),
    (("v").toList, [("venue").toList]),
    (("w").toList, [("water").toList, ("win").toList]),
    (("x").toList, [("extra").toList]),
    (("y").toList, [("year").toList, ("yards").toList]),
    (("z").toList, [("zone").toList]) ]

/-- calculateUltraSwimmingMatch: a direct pass (file pattern in file name, table
alternative in field name, score 0.9) followed by a reverse pass (0.85),
keeping the best score seen. -/
def calculateUltraSwimmingMatch (fileName qlikName : Str) : ℚ :=
  let direct := ultraSwimmingMaps.foldl
    (fun best p =>
      if jsIncludes fileName p.1 || decide (fileName = p.1) then
        p.2.foldl (fun b q =>
          if jsIncludes qlikName q || decide (qlikName = q) then max b (9/10) else b) best
      else best) 0
  ultraSwimmingMaps.foldl
    (fun best p =>
      p.2.foldl (fun b q =>
        if jsIncludes fileName q && jsIncludes qlikName p.1 then max b (17/20) else b) best)
    direct

/-- The per-pair comparison inside calculateUltraWordMatch: equal word 0.8,
containment 0.6, shared two-letter start of words longer than two 0.4. -/
def wordPairScore (fw qw : Str) : ℚ :=
  if fw = qw then 4/5
  else if jsIncludes fw qw || jsIncludes qw fw then 3/5
  else if fw.length > 2 && qw.length > 2 then
    if fw.take 2 = qw.take 2 then 2/5 else 0
  else 0

/-- calculateUltraWordMatch: best wordPairScore over all pairs of words from
the two names. -/
def calculateUltraWordMatch (fileName qlikName : Str) : ℚ :=
  let fileWords := splitWords fileName
  let qlikWords := splitWords qlikName
  (fileWords.map (fun fw => (qlikWords.map (wordPairScore fw)).foldl max 0)).foldl max 0

/-- calculatePositionalMatch: three sequential overwriting score assignments
(digits with a time field 0.5, short prefix or containment 0.6, short name with
a name field 0.4).  The fileColumn argument of the source is unused. -/
def calculatePositionalMatch (fileName qlikName : Str) : ℚ :=
  let score : ℚ := 0
  let score := if fileName.any Char.isDigit && jsIncludes qlikName (("time").toList)
    then 1/2 else score
  let score := if fileName.length ≤ 3 &&
      (fileName.isPrefixOf qlikName || jsIncludes qlikName fileName)
    then 3/5 else score
  let score := if fileName.length < 5 && jsIncludes qlikName (("name").toList)
    then 2/5 else score
  score

/-- The vowel-stripping consonant-class encoding of
calculateAdvancedPhoneticMatch, truncated to six characters. -/
def advancedSoundex (s : Str) : Str :=
  ((jsToLower s).filterMap (fun c =>
    if c = 'a' || c = 'e' || c = 'i' || c = 'o' || c = 'u' then none
    else if c = 'b' || c = 'p' then some '1'
    else if c = 'c' || c = 'g' || c = 'j' || c = 'k' || c = 'q' || c = 's'
        || c = 'x' || c = 'z' then some '2'
    else if c = 'd' || c = 't' then some '3'
    else if c = 'l' then some '4'
    else if c = 'm' || c = 'n' then some '5'
    else if c = 'r' then some '6'
    else if c = 'f' || c = 'v' || c = 'w' then some '7'
    else if c = 'h' || c = 'y' then some '8'
    else some c)).take 6

/-- Positions at which the two signatures agree, up to the shorter length. -/
def countPositionMatches (a b : Str) : Nat :=
  ((a.zip b).filter (fun p => decide (p.1 = p.2))).length

/-- calculateAdvancedPhoneticMatch: equal signatures of length above two give
0.7; long signatures agreeing on more than 60 percent of positions give 0.5. -/
def calculateAdvancedPhoneticMatch (fileName qlikName : Str) : ℚ :=
  let fileSoundex := advancedSoundex fileName
  let qlikSoundex := advancedSoundex qlikName
  if fileSoundex = qlikSoundex ∧ fileSoundex.length > 2 then 7/10
  else if fileSoundex.length > 3 ∧ qlikSoundex.length > 3 then
    let minLength := min fileSoundex.length qlikSoundex.length
    let agree := countPositionMatches fileSoundex qlikSoundex
    if (agree : ℚ) / (minLength : ℚ) > 3/5 then 1/2 else 0
  else 0

/-- Occurrences of a character in a string (the character-frequency table). -/
def charCount (s : Str) (c : Char) : Nat := (s.filter (fun d => decide (d = c))).length

/-- The per-character similarity of the frequency analysis: min frequency over
max frequency, or 0 when the character occurs in neither name. -/
def freqRatio (fc qc : Nat) : ℚ :=
  if max fc qc > 0 then ((min fc qc : ℕ) : ℚ) / (((max fc qc : ℕ)) : ℚ) else 0

/-- calculateCharacterFrequencyMatch: average freqRatio over the union of
characters of the two names; scaled by 0.65 when the average exceeds 0.7.
When both names are empty the source divides zero by zero, which compares
false against 0.7, so the result is 0. -/
def calculateCharacterFrequencyMatch (fileName qlikName : Str) : ℚ :=
  let f := jsToLower fileName
  let q := jsToLower qlikName
  let allChars := (f ++ q).dedup
  let similarity := (allChars.map (fun c => freqRatio (charCount f c) (charCount q c))).sum
  if allChars.length = 0 then 0
  else
    let avg := similarity / (allChars.length : ℚ)
    if avg > 7/10 then avg * (13/20) else 0

/-- calculateLengthSimilarity: one minus the relative length difference, scaled
by 0.6, only when above 0.8. -/
def calculateLengthSimilarity (fileName qlikName : Str) : ℚ :=
  let maxLength := max fileName.length qlikName.length
  if maxLength = 0 then 0
  else
    let lengthDiff := maxLength - min fileName.length qlikName.length
    let similarity : ℚ := 1 - (lengthDiff : ℚ) / (maxLength : ℚ)
    if similarity > 4/5 then similarity * (3/5) else 0

/-- The compatibleMap table of getUltraTypeCompatibility. -/
def compatibleMapUltra : List (Str × List Str) :=
  [ (("text").toList, [("text").toList, ("categorical").toList, ("dimension").toList,
      ("string").toList, ("numeric").toList]),
    (("numeric").toList, [("numeric").toList, ("measure").toList, ("number").toList,
      ("integer").toList, ("float").toList, ("text").toList]),
    (("swim_time").toList, [("numeric").toList, ("time").toList, ("measure").toList,
      ("text").toList, ("dimension").toList]),
    (("time").toList, [("numeric").toList, ("text").toList, ("measure").toList,
      ("time").toList, ("dimension").toList]),
    (("date").toList, [("text").toList, ("date").toList, ("timestamp").toList,
      ("dimension").toList]),
    (("categorical").toList, [("text").toList, ("dimension").toList,
      ("categorical").toList, ("numeric").toList]) ]

/-- getUltraTypeCompatibility: 1 for equal types, 0.98 for table-compatible
pairs, 0.85 for everything else. -/
def getUltraTypeCompatibility (fileType qlikType : Str) : ℚ :=
  if fileType = qlikType then 1
  else match compatibleMapUltra.lookup fileType with
    | some lst => if lst.any (fun t => decide (t = qlikType)) then 49/50 else 17/20
    | none => 17/20

/-- One boost row of applyUltraSwimmingBoosts: alternatives for the file-name
test, alternatives for the field-name test, and the boost amount.  The last
row models the single-letter pattern paired with the any-nonempty pattern. -/
def ultraBoostRows : List ((Str → Bool) × (Str → Bool) × ℚ) :=
  [ (fun s => jsIncludes s (("time").toList) || jsIncludes s (("duration").toList)
        || jsIncludes s (("sec").toList),
     fun s => jsIncludes s (("time").toList) || jsIncludes s (("duration").toList)
        || jsIncludes s (("result").toList), 3/20),
    (fun s => jsIncludes s (("name").toList) || jsIncludes s (("athlete").toList),
     fun s => jsIncludes s (("name").toList) || jsIncludes s (("athlete").toList)
        || jsIncludes s (("swimmer").toList), 3/20),
    (fun s => jsIncludes s (("place").toList) || jsIncludes s (("rank").toList),
     fun s => jsIncludes s (("place").toList) || jsIncludes s (("rank").toList)
        || jsIncludes s (("position").toList), 3/20),
    (fun s => jsIncludes s (("heat").toList),
     fun s => jsIncludes s (("heat").toList) || jsIncludes s (("round").toList)
        || jsIncludes s (("session").toList), 3/20),
    (fun s => jsIncludes s (("lane").toList),
     fun s => jsIncludes s (("lane").toList) || jsIncludes s (("position").toList)
        || jsIncludes s (("track").toList), 3/20),
    (fun s => jsIncludes s (("event").toList) || jsIncludes s (("race").toList),
     fun s => jsIncludes s (("event").toList) || jsIncludes s (("race").toList)
        || jsIncludes s (("competition").toList), 3/20),
    (fun s => jsIncludes s (("team").toList) || jsIncludes s (("club").toList),
     fun s => jsIncludes s (("team").toList) || jsIncludes s (("club").toList)
        || jsIncludes s (("country").toList), 3/20),
    (fun s => jsIncludes s (("reaction").toList) || jsIncludes s (("start").toList),
     fun s => jsIncludes s (("reaction").toList) || jsIncludes s (("start").toList), 3/20),
    (fun s => jsIncludes s (("distance").toList) || jsIncludes s (("dist").toList),
     fun s => jsIncludes s (("distance").toList) || jsIncludes s (("length").toList)
        || jsIncludes s (("meters").toList), 3/20),
    (fun s => jsIncludes s (("dq").toList),
     fun s => jsIncludes s (("dq").toList) || jsIncludes s (("disqualified").toList), 3/20),
    (fun s => s.length = 1 && s.all Char.isAlpha,
     fun s => !s.isEmpty, 1/10) ]

/-- applyUltraSwimmingBoosts: add the boost of every row whose two tests both
fire, then cap at 1. -/
def applyUltraSwimmingBoosts (fileName qlikName : Str) (currentConfidence : ℚ) : ℚ :=
  min (ultraBoostRows.foldl
    (fun acc row => if row.1 fileName && row.2.1 qlikName then acc + row.2.2 else acc)
    currentConfidence) 1

structure FileColumn where
  name : Str
  type : Str
deriving DecidableEq, Repr

structure QlikField where
  name : Str
  type : Str
deriving DecidableEq, Repr

/-- The confidence, matchType, reason record returned by the scorer. -/
structure MatchResult where
  confidence : ℚ
  matchType : Str
  reason : Str
deriving DecidableEq, Repr

/-- One entry of the candidate list: field, confidence, matchType, reason. -/
structure MatchCandidate where
  field : QlikField
  confidence : ℚ
  matchType : Str
  reason : Str
deriving DecidableEq, Repr

/-- One mapping-suggestion record for a file column. -/
structure Suggestion where
  qlikField : Option QlikField
  confidence : ℚ
  matchType : Str
  alternatives : List MatchCandidate
  reason : Str
deriving DecidableEq, Repr

/-- Keep the candidate state unless the new score strictly beats the running
confidence; this is the repeated if-statement of scorer steps 3 to 10. -/
def strategyMax (cur : ℚ × Str × Str) (score : ℚ) (ty rsn : Str) : ℚ × Str × Str :=
  if score > cur.1 then (score, ty, rsn) else cur

/-- Strategy 4 of the scorer: for names of at most three characters with at
least one common character, raise the confidence to 0.6 plus 0.25 per common
character and overwrite the match type. -/
def shortNameStep (fileName qlikName : Str) (cur : ℚ × Str × Str) : ℚ × Str × Str :=
  if fileName.length ≤ 3 && qlikName.length ≤ 3 then
    let commonChars := countCommonCharacters fileName qlikName
    if commonChars > 0 then
      (max cur.1 (3/5 + (commonChars : ℚ) * (1/4)), ("short_name_match").toList,
        ("Short name character match").toList)
    else cur
  else cur

/-- Strategies 2 to 10 of calculateUltraAggressiveMatchScore, applied to the
already-normalised non-equal names: containment, swimming domain, short-name
characters, word boundaries, positional, phonetic, character frequency,
length, ultra fuzzy.  Each strategy replaces the state only when it strictly
beats the running confidence. -/
def ultraStrategyCascade (fileName qlikName : Str) : ℚ × Str × Str :=
  let cur : ℚ × Str × Str :=
    if jsIncludes fileName qlikName || jsIncludes qlikName fileName then
      (19/20, ("contains").toList, ("Name contains match").toList)
    else (0, ("none").toList, ("No match").toList)
  let cur := strategyMax cur (calculateUltraSwimmingMatch fileName qlikName)
    (("ultra_swimming_domain").toList) (("Ultra swimming domain match").toList)
  let cur := shortNameStep fileName qlikName cur
  let cur := strategyMax cur (calculateUltraWordMatch fileName qlikName)
    (("ultra_word_match").toList) (("Ultra word boundary match").toList)
  let cur := strategyMax cur (calculatePositionalMatch fileName qlikName)
    (("positional").toList) (("Positional context match").toList)
  let cur := strategyMax cur (calculateAdvancedPhoneticMatch fileName qlikName)
    (("advanced_phonetic").toList) (("Advanced phonetic similarity").toList)
  let cur := strategyMax cur (calculateCharacterFrequencyMatch fileName qlikName)
    (("character_frequency").toList) (("Character frequency match").toList)
  let cur := strategyMax cur (calculateLengthSimilarity fileName qlikName)
    (("length_similarity").toList) (("Length-based similarity").toList)
  strategyMax cur (calculateUltraFuzzyScore fileName qlikName)
    (("ultra_fuzzy").toList) (("Ultra aggressive fuzzy match").toList)

/-- calculateUltraAggressiveMatchScore: the full strategy cascade.  Exact
matches return immediately; otherwise the maximum strategy wins, the
confidence is scaled by type compatibility, floor-boosted above 0.05,
swimming-boosted, desperation-boosted, and capped at 1. -/
def calculateUltraAggressiveMatchScore (fileColumn : FileColumn) (qlikField : QlikField) :
    MatchResult :=
  let fileName := normName fileColumn.name
  let qlikName := normName qlikField.name
  if fileName = qlikName then
    { confidence := 1, matchType := ("exact").toList, reason := ("Exact name match").toList }
  else
    let cur := ultraStrategyCascade fileName qlikName
    let conf := cur.1 * getUltraTypeCompatibility fileColumn.type qlikField.type
    let conf := if conf > 1/20 then max conf (1/4) else conf
    let conf := applyUltraSwimmingBoosts fileName qlikName conf
    let final : ℚ × Str × Str :=
      if conf < 1/10 && fileName.length > 0 && qlikName.length > 0 then
        (3/20, ("desperation_match").toList,
          ("Desperation matching - better than nothing").toList)
      else (conf, cur.2.1, cur.2.2)
    { confidence := min final.1 1, matchType := final.2.1, reason := final.2.2 }

/-- Stable insertion for the descending-confidence sort: an element passes
every strictly larger key and stops in front of the first key less than or
equal to its own, which matches the stable JavaScript sort with the
comparator subtracting confidences. -/
def insertDescBy {α : Type} (key : α → ℚ) (x : α) : List α → List α
  | [] => [x]
  | y :: ys => if key y > key x then y :: insertDescBy key x ys else x :: y :: ys

/-- Stable sort by descending key. -/
def sortDescBy {α : Type} (key : α → ℚ) : List α → List α
  | [] => []
  | x :: xs => insertDescBy key x (sortDescBy key xs)

/-- findBestMatchesUltraAggressive: score the column against every field, keep
candidates above 0.01, and sort them by descending confidence. -/
def findBestMatchesUltraAggressive (fileColumn : FileColumn) (qlikFields : List QlikField) :
    List MatchCandidate :=
  sortDescBy (fun m => m.confidence)
    (qlikFields.filterMap (fun qlikField =>
      let score := calculateUltraAggressiveMatchScore fileColumn qlikField
      if score.confidence > 1/100 then
        some { field := qlikField, confidence := score.confidence,
               matchType := score.matchType, reason := score.reason }
      else none))

/-- Read a key of the suggestions object (keys are file-column names). -/
def objGet {β : Type} : List (Str × β) → Str → Option β
  | [], _ => none
  | (k1, v) :: rest, k => if k1 = k then some v else objGet rest k

/-- Write a key of the suggestions object: overwrite in place if the key
exists, append otherwise, as a JavaScript object does. -/
def objSet {β : Type} : List (Str × β) → Str → β → List (Str × β)
  | [], k, v => [(k, v)]
  | (k1, v1) :: rest, k, v =>
    if k1 = k then (k, v) :: rest else (k1, v1) :: objSet rest k v

/-- The keys of a suggestions object, in insertion order. -/
def keysOf {β : Type} (m : List (Str × β)) : List Str := m.map Prod.fst

/-- The engine state threaded through the three phases: the suggestions built
so far and the set of already consumed field names. -/
abbrev EngineState := List (Str × Suggestion) × List Str

/-- Phase 1 for one column: take the best still-available candidate and commit
it only when its confidence exceeds 0.5. -/
def phase1Step (qlikFields : List QlikField) (st : EngineState) (fileCol : FileColumn) :
    EngineState :=
  let bestMatches := findBestMatchesUltraAggressive fileCol qlikFields
  let availableMatches := bestMatches.filter (fun m => !memStr st.2 m.field.name)
  match availableMatches with
  | [] => st
  | topMatch :: restMatches =>
    if topMatch.confidence > 1/2 then
      (objSet st.1 fileCol.name
        { qlikField := some topMatch.field, confidence := topMatch.confidence,
          matchType := topMatch.matchType, alternatives := restMatches.take 3,
          reason := topMatch.reason },
       topMatch.field.name :: st.2)
    else st

/-- Phase 2 for one still-unmapped column: accept candidates above 0.2 and
floor-boost the committed confidence to 0.35, annotating the reason. -/
def phase2Step (qlikFields : List QlikField) (st : EngineState) (fileCol : FileColumn) :
    EngineState :=
  if (objGet st.1 fileCol.name).isSome then st
  else
    let bestMatches := findBestMatchesUltraAggressive fileCol qlikFields
    let availableMatches := bestMatches.filter (fun m => !memStr st.2 m.field.name)
    match availableMatches with
    | [] => st
    | topMatch :: restMatches =>
      if topMatch.confidence > 1/5 then
        (objSet st.1 fileCol.name
          { qlikField := some topMatch.field, confidence := max topMatch.confidence (7/20),
            matchType := topMatch.matchType, alternatives := restMatches.take 3,
            reason := topMatch.reason ++ (" (Phase 2 mapping)").toList },
         topMatch.field.name :: st.2)
      else st

/-- The priority table of selectBestRemainingField: file-name patterns paired
with preferred remaining-field name fragments. -/
def forcePriorities : List (List Str × List Str) :=
  [ ([("time").toList, ("duration").toList, ("sec").toList],
     [("time").toList, ("lap_time").toList, ("reaction_time").toList, ("finish_time").toList]),
    ([("name").toList, ("athlete").toList],
     [("name").toList, ("athlete").toList, ("swimmer").toList]),
    ([("place").toList, ("rank").toList], [("place").toList, ("rank").toList]),
    ([("team").toList, ("club").toList],
     [("team").toList, ("club").toList, ("country").toList]),
    ([("event").toList, ("race").toList],
     [("event").toList, ("race").toList, ("competition").toList]),
    ([("heat").toList], [("heat").toList]),
    ([("lane").toList], [("lane").toList]),
    ([("distance").toList], [("distance").toList]),
    ([("dq").toList], [("dq").toList]) ]

/-- Does the file name match the alternation pattern (containment of any
alternative)? -/
def testAny (s : Str) (pats : List Str) : Bool := pats.any (fun p => jsIncludes s p)

/-- selectBestRemainingField: walk the priority table, returning the first
remaining field whose lowered name contains a preferred fragment; fall back to
the first remaining field. -/
def selectBestRemainingField (fileColumn : FileColumn) (availableFields : List QlikField) :
    Option QlikField :=
  let fileName := jsToLower fileColumn.name
  let fromPriorities := forcePriorities.foldl
    (fun acc pr =>
      match acc with
      | some f => some f
      | none =>
        if testAny fileName pr.1 then
          pr.2.foldl (fun acc2 pf =>
            match acc2 with
            | some f => some f
            | none => availableFields.find? (fun field => jsIncludes (jsToLower field.name) pf))
            none
        else none)
    none
  match fromPriorities with
  | some f => some f
  | none => availableFields.head?

/-- createUltraAggressiveFallback: the null mapping used when every field has
been consumed, with the 0.1 placeholder confidence. -/
def createUltraAggressiveFallback (_fileColumn : FileColumn) : Suggestion :=
  { qlikField := none, confidence := 1/10, matchType := ("ultra_aggressive_null").toList,
    alternatives := [],
    reason := ("No available Qlik fields remaining - all fields have been assigned").toList }

/-- Phase 3 for one still-unmapped column: force-assign a remaining field at
confidence 0.4, or fall back to the null mapping when none remain. -/
def phase3Step (qlikFields : List QlikField) (st : EngineState) (fileCol : FileColumn) :
    EngineState :=
  if (objGet st.1 fileCol.name).isSome then st
  else
    let availableFields := qlikFields.filter (fun field => !memStr st.2 field.name)
    if availableFields.length > 0 then
      match selectBestRemainingField fileCol availableFields with
      | some selectedField =>
        (objSet st.1 fileCol.name
          { qlikField := some selectedField, confidence := 2/5,
            matchType := ("ultra_aggressive_force").toList, alternatives := [],
            reason := ("Ultra aggressive force mapping - field assigned based on position and type").toList },
         selectedField.name :: st.2)
      | none => st
    else (objSet st.1 fileCol.name (createUltraAggressiveFallback fileCol), st.2)

/-- Run one phase over every file column. -/
def runPhase (step : List QlikField → EngineState → FileColumn → EngineState)
    (qlikFields : List QlikField) (fileColumns : List FileColumn) (st : EngineState) :
    EngineState :=
  fileColumns.foldl (step qlikFields) st

/-- A JavaScript argument that should be an array: null or undefined, some
non-array value, or an actual array. -/
inductive JsArrayInput (α : Type) where
  | nullish
  | nonArray
  | arr (xs : List α)

/-- generateMappingSuggestions (ULTRA AGGRESSIVE): after validating that both
arguments are arrays, run the three phases over the shared engine state and
return the suggestions object.  Malformed input returns the empty object. -/
def generateMappingSuggestions (fileColumns : JsArrayInput FileColumn)
    (qlikFields : JsArrayInput QlikField) : List (Str × Suggestion) :=
  match fileColumns with
  | .nullish => []
  | .nonArray => []
  | .arr cols =>
    match qlikFields with
    | .nullish => []
    | .nonArray => []
    | .arr fields =>
      (runPhase phase3Step fields cols
        (runPhase phase2Step fields cols
          (runPhase phase1Step fields cols ([], [])))).1

/-- The reason string attached to an unresolved conflict by the validator. -/
def conflictReason : Str := ("Conflict detected - shared field assignment").toList

/-- One step of validateMappingSuggestions for a sorted mapped entry: keep the
first claim of a field, otherwise substitute the first free alternative at a
discounted confidence, otherwise keep the entry with the conflict marker. -/
def validateStep (st : List (Str × Suggestion) × List Str) (entry : Str × Suggestion) :
    List (Str × Suggestion) × List Str :=
  match entry.2.qlikField with
  | none => st
  | some qf =>
    if memStr st.2 qf.name then
      match entry.2.alternatives.filter (fun alt => !memStr st.2 alt.field.name) with
      | altTop :: _ =>
        (objSet st.1 entry.1
          { entry.2 with
            qlikField := some altTop.field,
            confidence := max (altTop.confidence * (9/10)) (3/10),
            reason := ("Alternative mapping (conflict resolved)").toList },
         altTop.field.name :: st.2)
      | [] =>
        (objSet st.1 entry.1
          { entry.2 with
            confidence := max (entry.2.confidence * (7/10)) (1/4),
            reason := conflictReason },
         st.2)
    else (st.1, qf.name :: st.2)

/-- validateMappingSuggestions (ULTRA AGGRESSIVE): sort the mapped entries by
descending confidence and resolve duplicate field assignments.  The
fileColumns and qlikFields parameters of the source are unused. -/
def validateMappingSuggestions (suggestions : List (Str × Suggestion))
    (_fileColumns : List FileColumn) (_qlikFields : List QlikField) :
    List (Str × Suggestion) :=
  let sortedEntries := sortDescBy (fun e => e.2.confidence)
    (suggestions.filter (fun e => e.2.qlikField.isSome))
  (sortedEntries.foldl validateStep (suggestions, [])).1

/-- The summary record of generateMappingSummary. -/
structure MappingSummary where
  totalColumns : Nat
  mappedColumns : Nat
  unmappedColumns : Nat
  highConfidenceColumns : Nat
  mediumConfidenceColumns : Nat
  lowConfidenceColumns : Nat
  averageConfidence : ℚ
deriving DecidableEq, Repr

/-- One iteration of the summary aggregation (the forEach body of
generateMappingSummary), threading the summary and the running total
confidence. -/
def summaryStep (acc : MappingSummary × ℚ) (e : Str × Suggestion) : MappingSummary × ℚ :=
  if e.2.qlikField.isSome && decide (e.2.confidence > 0) then
    let acc1 := { acc.1 with mappedColumns := acc.1.mappedColumns + 1 }
    let acc1 :=
      if e.2.confidence ≥ 3/5 then
        { acc1 with highConfidenceColumns := acc1.highConfidenceColumns + 1 }
      else if e.2.confidence ≥ 3/10 then
        { acc1 with mediumConfidenceColumns := acc1.mediumConfidenceColumns + 1 }
      else { acc1 with lowConfidenceColumns := acc1.lowConfidenceColumns + 1 }
    (acc1, acc.2 + e.2.confidence)
  else ({ acc.1 with unmappedColumns := acc.1.unmappedColumns + 1 }, acc.2)

/-- generateMappingSummary: count mapped (non-null field with positive
confidence) and unmapped entries, bucket mapped confidences at 0.6 and 0.3,
and average confidence over the mapped entries only. -/
def generateMappingSummary (suggestions : List (Str × Suggestion)) : MappingSummary :=
  let st := suggestions.foldl summaryStep
    ({ totalColumns := suggestions.length, mappedColumns := 0, unmappedColumns := 0,
       highConfidenceColumns := 0, mediumConfidenceColumns := 0,
       lowConfidenceColumns := 0, averageConfidence := 0 }, 0)
  { st.1 with averageConfidence :=
      if st.1.mappedColumns > 0 then st.2 / (st.1.mappedColumns : ℚ) else 0 }

/-- The target-field name carried by a suggestion, when mapped. -/
def mappedName (s : Suggestion) : Option Str := s.qlikField.map QlikField.name

/-- A fixed sample match type and reason for the concrete examples below. -/
def mkSugg (f : Option QlikField) (c : ℚ) (alts : List MatchCandidate) : Suggestion :=
  { qlikField := f, confidence := c, matchType := ("exact").toList,
    alternatives := alts, reason := ("r").toList }

/-- A suggestion set in which two columns claim the same field x with no
alternatives: the validator must leave a duplicated assignment behind. -/
def conflictedPair : List (Str × Suggestion) :=
  [((("a").toList), mkSugg (some { name := ("x").toList, type := ("text").toList }) (9/10) []),
   ((("b").toList), mkSugg (some { name := ("x").toList, type := ("text").toList }) (4/5) [])]

/-- A suggestion set with a mapped entry of confidence zero next to a mapped
entry of positive confidence. -/
def zeroConfPair : List (Str × Suggestion) :=
  [((("a").toList), mkSugg (some { name := ("x").toList, type := ("text").toList }) 0 []),
   ((("b").toList), mkSugg (some { name := ("y").toList, type := ("text").toList }) (4/5) [])]

/-- The no-duplicate-target invariant threaded through the engine phases:
every mapped entry's field name is recorded in the used set, and no two
entries share a non-null target field name. -/
def PhaseInv (st : EngineState) : Prop :=
  (∀ e ∈ st.1, ∀ f, e.2.qlikField = some f → memStr st.2 f.name = true) ∧
  st.1.Pairwise (fun e1 e2 => ∀ n, mappedName e1.2 = some n → mappedName e2.2 ≠ some n)


/-! ### Generic helper lemmas -/

theorem foldl_preserve {σ α : Type} {P : σ → Prop} (f : σ → α → σ) :
    ∀ (l : List α) (init : σ), P init → (∀ s x, x ∈ l → P s → P (f s x)) →
    P (l.foldl f init) := by
  intro l
  induction l with
  | nil => intro init h _; exact h
  | cons x xs ih =>
    intro init h hstep
    exact ih _ (hstep init x (List.mem_cons_self x xs) h)
      (fun s y hy => hstep s y (List.mem_cons_of_mem x hy))

theorem memStr_iff {used : List Str} {x : Str} : memStr used x = true ↔ x ∈ used := by
  unfold memStr
  rw [List.any_eq_true]
  constructor
  · rintro ⟨y, hy, hxy⟩
    exact (of_decide_eq_true hxy) ▸ hy
  · intro h
    exact ⟨x, h, by simp⟩

theorem memStr_eq_false_iff {used : List Str} {x : Str} : memStr used x = false ↔ x ∉ used := by
  rw [← Bool.not_eq_true, not_iff_not]; exact memStr_iff

/-! ### Lemmas about the suggestions object -/

theorem objGet_nil {β : Type} (k : Str) : objGet ([] : List (Str × β)) k = none := rfl

theorem objGet_cons {β : Type} (k1 : Str) (v1 : β) (rest : List (Str × β)) (k : Str) :
    objGet ((k1, v1) :: rest) k = if k1 = k then some v1 else objGet rest k := rfl

theorem objSet_cons {β : Type} (k1 : Str) (v1 : β) (rest : List (Str × β)) (k : Str) (v : β) :
    objSet ((k1, v1) :: rest) k v =
      if k1 = k then (k, v) :: rest else (k1, v1) :: objSet rest k v := rfl

theorem objGet_objSet_same {β : Type} (m : List (Str × β)) (k : Str) (v : β) :
    objGet (objSet m k v) k = some v := by
  induction m with
  | nil => rw [objSet, objGet_cons, if_pos rfl]
  | cons e rest ih =>
    obtain ⟨k1, v1⟩ := e
    rw [objSet_cons]
    by_cases h : k1 = k
    · rw [if_pos h, objGet_cons, if_pos rfl]
    · rw [if_neg h, objGet_cons, if_neg h, ih]

theorem objGet_objSet_other {β : Type} (m : List (Str × β)) (k k2 : Str) (v : β)
    (h : k2 ≠ k) : objGet (objSet m k v) k2 = objGet m k2 := by
  have hkk : k ≠ k2 := Ne.symm h
  induction m with
  | nil => rw [objSet, objGet_cons, if_neg hkk, objGet_nil]
  | cons e rest ih =>
    obtain ⟨k1, v1⟩ := e
    rw [objSet_cons]
    by_cases h1 : k1 = k
    · rw [if_pos h1, objGet_cons, objGet_cons, if_neg hkk, if_neg (h1 ▸ hkk)]
    · rw [if_neg h1, objGet_cons, objGet_cons, ih]

theorem mem_objSet {β : Type} (m : List (Str × β)) (k : Str) (v : β) :
    ∀ e ∈ objSet m k v, e = (k, v) ∨ e ∈ m := by
  induction m with
  | nil =>
    intro e he
    rw [objSet] at he
    exact Or.inl (List.mem_singleton.mp he)
  | cons e1 rest ih =>
    obtain ⟨k1, v1⟩ := e1
    intro e he
    rw [objSet_cons] at he
    by_cases h : k1 = k
    · rw [if_pos h] at he
      rcases List.mem_cons.mp he with h1 | h1
      · exact Or.inl h1
      · exact Or.inr (List.mem_cons_of_mem _ h1)
    · rw [if_neg h] at he
      rcases List.mem_cons.mp he with h1 | h1
      · exact Or.inr (h1 ▸ List.mem_cons_self _ _)
      · rcases ih e h1 with h2 | h2
        · exact Or.inl h2
        · exact Or.inr (List.mem_cons_of_mem _ h2)

theorem keysOf_nil {β : Type} : keysOf ([] : List (Str × β)) = [] := rfl

theorem keysOf_cons {β : Type} (e : Str × β) (rest : List (Str × β)) :
    keysOf (e :: rest) = e.1 :: keysOf rest := rfl

theorem keysOf_objSet {β : Type} (m : List (Str × β)) (k : Str) (v : β) :
    keysOf (objSet m k v) = if (objGet m k).isSome then keysOf m else keysOf m ++ [k] := by
  induction m with
  | nil => rw [objSet, objGet_nil]; rfl
  | cons e rest ih =>
    obtain ⟨k1, v1⟩ := e
    rw [objSet_cons, objGet_cons]
    by_cases h : k1 = k
    · rw [if_pos h, if_pos h, keysOf_cons, keysOf_cons]
      simp [h]
    · rw [if_neg h, if_neg h, keysOf_cons, keysOf_cons, ih]
      by_cases h2 : (objGet rest k).isSome
      · rw [if_pos h2, if_pos h2]
      · rw [if_neg h2, if_neg h2]; rfl

theorem objGet_isSome_iff_mem {β : Type} (m : List (Str × β)) (k : Str) :
    (objGet m k).isSome = true ↔ k ∈ keysOf m := by
  induction m with
  | nil => rw [objGet_nil, keysOf_nil]; simp
  | cons e rest ih =>
    obtain ⟨k1, v1⟩ := e
    rw [objGet_cons, keysOf_cons]
    by_cases h : k1 = k
    · rw [if_pos h]; simp [h]
    · rw [if_neg h]
      simp only [List.mem_cons, ih]
      constructor
      · exact fun hh => Or.inr hh
      · rintro (hh | hh)
        · exact absurd hh.symm h
        · exact hh

theorem keysOf_objSet_nodup {β : Type} (m : List (Str × β)) (k : Str) (v : β)
    (h : (keysOf m).Nodup) : (keysOf (objSet m k v)).Nodup := by
  rw [keysOf_objSet]
  by_cases h2 : (objGet m k).isSome
  · rw [if_pos h2]; exact h
  · rw [if_neg h2]
    have hk : k ∉ keysOf m := fun hmem => h2 ((objGet_isSome_iff_mem m k).mpr hmem)
    refine List.nodup_append.mpr ⟨h, List.nodup_singleton k, ?_⟩
    intro a ha hb
    rw [List.mem_singleton] at hb
    exact hk (hb ▸ ha)

theorem objGet_of_mem_nodup {β : Type} (m : List (Str × β)) (k : Str) (v : β)
    (hnd : (keysOf m).Nodup) (hmem : (k, v) ∈ m) : objGet m k = some v := by
  induction m with
  | nil => simp at hmem
  | cons e rest ih =>
    obtain ⟨k1, v1⟩ := e
    rw [keysOf_cons, List.nodup_cons] at hnd
    rw [objGet_cons]
    rcases List.mem_cons.mp hmem with h1 | h1
    · obtain ⟨hk, hv⟩ := Prod.mk.inj h1
      rw [if_pos hk.symm, hv]
    · have hne : k1 ≠ k := by
        intro hh
        exact hnd.1 (hh ▸ List.mem_map.mpr ⟨(k, v), h1, rfl⟩)
      rw [if_neg hne]
      exact ih hnd.2 h1

theorem mem_of_objGet {β : Type} (m : List (Str × β)) (k : Str) (v : β)
    (h : objGet m k = some v) : (k, v) ∈ m := by
  induction m with
  | nil => rw [objGet_nil] at h; cases h
  | cons e rest ih =>
    obtain ⟨k1, v1⟩ := e
    rw [objGet_cons] at h
    by_cases he : k1 = k
    · rw [if_pos he] at h
      obtain rfl : v1 = v := Option.some.inj h
      exact he ▸ List.mem_cons_self _ _
    · rw [if_neg he] at h
      exact List.mem_cons_of_mem _ (ih h)

/-! ### Lemmas about the descending stable sort -/

theorem perm_insertDescBy {α : Type} (key : α → ℚ) (x : α) (l : List α) :
    List.Perm (insertDescBy key x l) (x :: l) := by
  induction l with
  | nil => exact List.Perm.refl _
  | cons y ys ih =>
    by_cases h : key y > key x
    · rw [insertDescBy, if_pos h]
      exact (ih.cons y).trans (List.Perm.swap x y ys)
    · rw [insertDescBy, if_neg h]

theorem perm_sortDescBy {α : Type} (key : α → ℚ) (l : List α) :
    List.Perm (sortDescBy key l) l := by
  induction l with
  | nil => exact List.Perm.refl _
  | cons x xs ih =>
    exact (perm_insertDescBy key x (sortDescBy key xs)).trans (ih.cons x)

theorem sorted_insertDescBy {α : Type} (key : α → ℚ) (x : α) (l : List α)
    (h : l.Pairwise (fun a b => key b ≤ key a)) :
    (insertDescBy key x l).Pairwise (fun a b => key b ≤ key a) := by
  induction l with
  | nil => simp [insertDescBy]
  | cons y ys ih =>
    rcases List.pairwise_cons.mp h with ⟨hy, hys⟩
    by_cases hk : key y > key x
    · rw [insertDescBy, if_pos hk]
      refine List.pairwise_cons.mpr ⟨?_, ih hys⟩
      intro b hb
      rcases List.mem_cons.mp ((perm_insertDescBy key x ys).mem_iff.mp hb) with h1 | h1
      · exact h1 ▸ le_of_lt hk
      · exact hy b h1
    · rw [insertDescBy, if_neg hk]
      push_neg at hk
      refine List.pairwise_cons.mpr ⟨?_, h⟩
      intro b hb
      rcases List.mem_cons.mp hb with h1 | h1
      · exact h1 ▸ hk
      · exact le_trans (hy b h1) hk

theorem sorted_sortDescBy {α : Type} (key : α → ℚ) (l : List α) :
    (sortDescBy key l).Pairwise (fun a b => key b ≤ key a) := by
  induction l with
  | nil => simp [sortDescBy]
  | cons x xs ih => exact sorted_insertDescBy key x _ ih

/-! ### Lemmas about the edit distance -/

theorem levenshteinDistance_nil_left (s : Str) : levenshteinDistance [] s = s.length := rfl

theorem levenshteinDistance_cons_cons (x : Char) (xs : Str) (y : Char) (ys : Str) :
    levenshteinDistance (x :: xs) (y :: ys) =
      if x = y then levenshteinDistance xs ys
      else 1 + min (levenshteinDistance xs ys)
        (min (levenshteinDistance (x :: xs) ys) (levenshteinDistance xs (y :: ys))) := rfl

theorem levenshteinDistance_nil_right (s : Str) : levenshteinDistance s [] = s.length := by
  cases s with
  | nil => rfl
  | cons x xs =>
    rw [show levenshteinDistance (x :: xs) [] = xs.length + 1 from rfl, List.length_cons]

theorem levenshteinDistance_comm (a b : Str) :
    levenshteinDistance a b = levenshteinDistance b a := by
  induction a generalizing b with
  | nil => rw [levenshteinDistance_nil_left, levenshteinDistance_nil_right]
  | cons x xs iha =>
    induction b with
    | nil => rw [levenshteinDistance_nil_left, levenshteinDistance_nil_right]
    | cons y ys ihb =>
      rw [levenshteinDistance_cons_cons, levenshteinDistance_cons_cons]
      by_cases h : x = y
      · rw [if_pos h, if_pos h.symm, iha ys]
      · rw [if_neg h, if_neg (fun hh => h hh.symm), iha ys, iha (y :: ys), ihb]
        omega

theorem levenshteinDistance_le_max (a b : Str) :
    levenshteinDistance a b ≤ max a.length b.length := by
  induction a generalizing b with
  | nil => rw [levenshteinDistance_nil_left]; simp
  | cons x xs iha =>
    induction b with
    | nil => rw [levenshteinDistance_nil_right]; simp
    | cons y ys ihb =>
      rw [levenshteinDistance_cons_cons]
      by_cases h : x = y
      · rw [if_pos h]
        have := iha ys
        simp only [List.length_cons] at *
        omega
      · rw [if_neg h]
        have h1 := iha ys
        simp only [List.length_cons] at *
        omega

/-! ### Bounds for the individual scoring strategies -/

theorem foldl_congr_id {σ α : Type} (f : σ → α → σ) (l : List α) (init : σ)
    (h : ∀ s x, x ∈ l → f s x = s) : l.foldl f init = init := by
  induction l generalizing init with
  | nil => rfl
  | cons x xs ih =>
    rw [List.foldl_cons, h init x (List.mem_cons_self x xs)]
    exact ih init (fun s y hy => h s y (List.mem_cons_of_mem x hy))

theorem calculateUltraSwimmingMatch_bounds (f q : Str) :
    0 ≤ calculateUltraSwimmingMatch f q ∧ calculateUltraSwimmingMatch f q ≤ 9/10 := by
  unfold calculateUltraSwimmingMatch
  refine foldl_preserve (P := fun b => 0 ≤ b ∧ b ≤ 9/10) _ _ _ ?_ ?_
  · refine foldl_preserve (P := fun b => 0 ≤ b ∧ b ≤ 9/10) _ _ _ ?_ ?_
    · constructor <;> norm_num
    · intro s x _ hs
      dsimp only
      split
      · refine foldl_preserve (P := fun b => 0 ≤ b ∧ b ≤ 9/10) _ _ _ hs ?_
        intro b y _ hb
        dsimp only
        split
        · exact ⟨le_trans hb.1 (le_max_left _ _), max_le hb.2 (by norm_num)⟩
        · exact hb
      · exact hs
  · intro s x _ hs
    dsimp only
    refine foldl_preserve (P := fun b => 0 ≤ b ∧ b ≤ 9/10) _ _ _ hs ?_
    intro b y _ hb
    dsimp only
    split
    · exact ⟨le_trans hb.1 (le_max_left _ _), max_le hb.2 (by norm_num)⟩
    · exact hb

theorem wordPairScore_bounds (fw qw : Str) :
    0 ≤ wordPairScore fw qw ∧ wordPairScore fw qw ≤ 4/5 := by
  unfold wordPairScore
  split_ifs <;> norm_num

theorem calculateUltraWordMatch_bounds (f q : Str) :
    0 ≤ calculateUltraWordMatch f q ∧ calculateUltraWordMatch f q ≤ 4/5 := by
  unfold calculateUltraWordMatch
  refine foldl_preserve (P := fun b => 0 ≤ b ∧ b ≤ 4/5) _ _ _ (by norm_num) ?_
  intro s x hx hs
  rcases List.mem_map.mp hx with ⟨fw, _, rfl⟩
  constructor
  · exact le_trans hs.1 (le_max_left _ _)
  · refine max_le hs.2 ?_
    refine foldl_preserve (P := fun b => b ≤ 4/5) _ _ _ (by norm_num) ?_
    intro b y hy hb
    rcases List.mem_map.mp hy with ⟨qw, _, rfl⟩
    exact max_le hb (wordPairScore_bounds fw qw).2

theorem calculatePositionalMatch_bounds (f q : Str) :
    0 ≤ calculatePositionalMatch f q ∧ calculatePositionalMatch f q ≤ 3/5 := by
  unfold calculatePositionalMatch
  split_ifs <;> norm_num

theorem calculateAdvancedPhoneticMatch_bounds (f q : Str) :
    0 ≤ calculateAdvancedPhoneticMatch f q ∧ calculateAdvancedPhoneticMatch f q ≤ 7/10 := by
  simp only [calculateAdvancedPhoneticMatch]
  split_ifs <;> norm_num

theorem freqRatio_bounds (fc qc : Nat) : 0 ≤ freqRatio fc qc ∧ freqRatio fc qc ≤ 1 := by
  unfold freqRatio
  split
  · rename_i hpos
    constructor
    · positivity
    · rw [div_le_one (by exact_mod_cast hpos)]
      exact_mod_cast min_le_max
  · norm_num

theorem avgClip_bounds (S : ℚ) (n : ℕ) (h0 : 0 ≤ S) (hle : S ≤ (n : ℚ)) :
    0 ≤ (if S / (n : ℚ) > 7/10 then S / (n : ℚ) * (13/20) else 0) ∧
      (if S / (n : ℚ) > 7/10 then S / (n : ℚ) * (13/20) else 0) ≤ 13/20 := by
  rcases Nat.eq_zero_or_pos n with hn | hn
  · subst hn
    constructor <;> norm_num
  · have hnq : (0 : ℚ) < (n : ℚ) := by exact_mod_cast hn
    have havg0 : 0 ≤ S / (n : ℚ) := div_nonneg h0 (le_of_lt hnq)
    have havg1 : S / (n : ℚ) ≤ 1 := by rw [div_le_one hnq]; exact hle
    split
    · constructor
      · positivity
      · nlinarith
    · norm_num

theorem calculateCharacterFrequencyMatch_bounds (f q : Str) :
    0 ≤ calculateCharacterFrequencyMatch f q ∧
      calculateCharacterFrequencyMatch f q ≤ 13/20 := by
  simp only [calculateCharacterFrequencyMatch]
  split
  · norm_num
  · refine avgClip_bounds _ _ ?_ ?_
    · refine List.sum_nonneg ?_
      intro t ht
      rcases List.mem_map.mp ht with ⟨c, _, rfl⟩
      exact (freqRatio_bounds _ _).1
    · calc (List.map (fun c => freqRatio (charCount (jsToLower f) c)
              (charCount (jsToLower q) c)) (((jsToLower f) ++ (jsToLower q)).dedup)).sum
          ≤ (List.map (fun c => freqRatio (charCount (jsToLower f) c)
              (charCount (jsToLower q) c)) (((jsToLower f) ++ (jsToLower q)).dedup)).length
              • (1 : ℚ) :=
            List.sum_le_card_nsmul _ 1 (fun t ht => by
              rcases List.mem_map.mp ht with ⟨c, _, rfl⟩
              exact (freqRatio_bounds _ _).2)
        _ = ((((jsToLower f) ++ (jsToLower q)).dedup).length : ℚ) := by
            rw [List.length_map]
            simp

theorem simClip_bounds (x : ℚ) (hx : 0 ≤ x) :
    0 ≤ (if 1 - x > 4/5 then (1 - x) * (3/5) else 0) ∧
      (if 1 - x > 4/5 then (1 - x) * (3/5) else 0) ≤ 3/5 := by
  split
  · rename_i hs
    constructor <;> nlinarith
  · norm_num

theorem calculateLengthSimilarity_bounds (f q : Str) :
    0 ≤ calculateLengthSimilarity f q ∧ calculateLengthSimilarity f q ≤ 3/5 := by
  simp only [calculateLengthSimilarity]
  split
  · norm_num
  · exact simClip_bounds _ (by positivity)

theorem fuzzyCore_bounds (x y : Str) (h : levenshteinDistance x y ≤ x.length) :
    0 ≤ min (((x.length : ℚ) - ((levenshteinDistance x y : ℕ) : ℚ)) / ((x.length : ℕ) : ℚ)
        * (13/10)) 1 ∧
      min (((x.length : ℚ) - ((levenshteinDistance x y : ℕ) : ℚ)) / ((x.length : ℕ) : ℚ)
        * (13/10)) 1 ≤ 1 := by
  constructor
  · refine le_min ?_ (by norm_num)
    refine mul_nonneg (div_nonneg ?_ (by positivity)) (by norm_num)
    rw [sub_nonneg]
    exact_mod_cast h
  · exact min_le_right _ _

theorem calculateUltraFuzzyScore_bounds (a b : Str) :
    0 ≤ calculateUltraFuzzyScore a b ∧ calculateUltraFuzzyScore a b ≤ 1 := by
  simp only [calculateUltraFuzzyScore]
  split
  · norm_num
  split
  · norm_num
  by_cases hab : a.length > b.length
  · simp only [if_pos hab]
    split
    · norm_num
    · refine fuzzyCore_bounds a b ?_
      have := levenshteinDistance_le_max a b
      omega
  · simp only [if_neg hab]
    split
    · norm_num
    · refine fuzzyCore_bounds b a ?_
      have := levenshteinDistance_le_max b a
      omega

theorem getUltraTypeCompatibility_bounds (a b : Str) :
    17/20 ≤ getUltraTypeCompatibility a b ∧ getUltraTypeCompatibility a b ≤ 1 := by
  unfold getUltraTypeCompatibility
  split
  · norm_num
  · split
    · split <;> norm_num
    · norm_num

/-! ### Bounds for the boost pass and the full scorer -/

theorem ultraBoostRows_boost_nonneg : ∀ row ∈ ultraBoostRows, 0 ≤ row.2.2 := by
  intro row h
  fin_cases h <;> norm_num

theorem applyUltraSwimmingBoosts_nonneg (f q : Str) (c : ℚ) (hc : 0 ≤ c) :
    0 ≤ applyUltraSwimmingBoosts f q c := by
  unfold applyUltraSwimmingBoosts
  refine le_min ?_ (by norm_num)
  refine foldl_preserve (P := fun b => 0 ≤ b) _ _ _ hc ?_
  intro s row hrow hs
  dsimp only
  split
  · exact add_nonneg hs (ultraBoostRows_boost_nonneg row hrow)
  · exact hs

theorem applyUltraSwimmingBoosts_no_hit (f q : Str) (c : ℚ)
    (h : ∀ row ∈ ultraBoostRows, (row.1 f && row.2.1 q) = false) :
    applyUltraSwimmingBoosts f q c = min c 1 := by
  unfold applyUltraSwimmingBoosts
  rw [foldl_congr_id]
  intro s row hrow
  dsimp only
  rw [h row hrow]
  simp

theorem ultraBoostRows_no_hit_left (q : Str) :
    ∀ row ∈ ultraBoostRows, (row.1 [] && row.2.1 q) = false := by
  intro row h
  fin_cases h <;> exact Bool.and_eq_false_iff.mpr (Or.inl (by decide))

theorem ultraBoostRows_no_hit_right (f : Str) :
    ∀ row ∈ ultraBoostRows, (row.1 f && row.2.1 []) = false := by
  intro row h
  fin_cases h <;> exact Bool.and_eq_false_iff.mpr (Or.inr (by decide))

theorem strategyMax_fst_nonneg (cur : ℚ × Str × Str) (score : ℚ) (t r : Str)
    (h : 0 ≤ cur.1) : 0 ≤ (strategyMax cur score t r).1 := by
  unfold strategyMax
  split
  · rename_i hs
    exact le_of_lt (lt_of_le_of_lt h hs)
  · exact h

theorem strategyMax_of_le (cur : ℚ × Str × Str) (score : ℚ) (t r : Str)
    (h : score ≤ cur.1) : strategyMax cur score t r = cur := by
  unfold strategyMax
  rw [if_neg (not_lt.mpr h)]

theorem shortNameStep_fst_nonneg (f q : Str) (cur : ℚ × Str × Str) (h : 0 ≤ cur.1) :
    0 ≤ (shortNameStep f q cur).1 := by
  simp only [shortNameStep]
  split
  · split
    · exact le_trans h (le_max_left _ _)
    · exact h
  · exact h

theorem shortNameStep_of_zero (f q : Str) (cur : ℚ × Str × Str)
    (h : countCommonCharacters f q = 0) : shortNameStep f q cur = cur := by
  simp [shortNameStep, h]

theorem ultraStrategyCascade_fst_nonneg (f q : Str) : 0 ≤ (ultraStrategyCascade f q).1 := by
  simp only [ultraStrategyCascade]
  refine strategyMax_fst_nonneg _ _ _ _ ?_
  refine strategyMax_fst_nonneg _ _ _ _ ?_
  refine strategyMax_fst_nonneg _ _ _ _ ?_
  refine strategyMax_fst_nonneg _ _ _ _ ?_
  refine strategyMax_fst_nonneg _ _ _ _ ?_
  refine strategyMax_fst_nonneg _ _ _ _ ?_
  refine shortNameStep_fst_nonneg _ _ _ ?_
  refine strategyMax_fst_nonneg _ _ _ _ ?_
  split <;> norm_num

theorem calculateUltraAggressiveMatchScore_confidence_nonneg
    (c : FileColumn) (qf : QlikField) :
    0 ≤ (calculateUltraAggressiveMatchScore c qf).confidence := by
  simp only [calculateUltraAggressiveMatchScore]
  split
  · norm_num
  · refine le_min ?_ (by norm_num)
    split
    · split
      · norm_num
      · refine applyUltraSwimmingBoosts_nonneg _ _ _ ?_
        exact le_trans (by norm_num) (le_max_right _ _)
    · split
      · norm_num
      · refine applyUltraSwimmingBoosts_nonneg _ _ _ ?_
        exact mul_nonneg (ultraStrategyCascade_fst_nonneg _ _)
          (le_trans (by norm_num) (getUltraTypeCompatibility_bounds _ _).1)

theorem calculateUltraAggressiveMatchScore_confidence_le_one
    (c : FileColumn) (qf : QlikField) :
    (calculateUltraAggressiveMatchScore c qf).confidence ≤ 1 := by
  simp only [calculateUltraAggressiveMatchScore]
  split
  · norm_num
  · dsimp only
    exact min_le_right _ _

theorem calculateUltraAggressiveMatchScore_exact (c : FileColumn) (qf : QlikField)
    (h : normName c.name = normName qf.name) :
    calculateUltraAggressiveMatchScore c qf =
      { confidence := 1, matchType := ("exact").toList,
        reason := ("Exact name match").toList } := by
  unfold calculateUltraAggressiveMatchScore
  rw [if_pos h]

/-! ### Lemmas about the candidate list -/

theorem mem_findBestMatches {c : FileColumn} {fields : List QlikField} {m : MatchCandidate}
    (h : m ∈ findBestMatchesUltraAggressive c fields) :
    ∃ g ∈ fields, (calculateUltraAggressiveMatchScore c g).confidence > 1/100 ∧
      m = { field := g,
            confidence := (calculateUltraAggressiveMatchScore c g).confidence,
            matchType := (calculateUltraAggressiveMatchScore c g).matchType,
            reason := (calculateUltraAggressiveMatchScore c g).reason } := by
  unfold findBestMatchesUltraAggressive at h
  have h2 := (perm_sortDescBy (fun x : MatchCandidate => x.confidence) _).mem_iff.mp h
  rcases List.mem_filterMap.mp h2 with ⟨g, hg, hsome⟩
  by_cases hconf : (calculateUltraAggressiveMatchScore c g).confidence > 1/100
  · rw [if_pos hconf] at hsome
    exact ⟨g, hg, hconf, (Option.some.inj hsome).symm⟩
  · rw [if_neg hconf] at hsome
    cases hsome

theorem findBestMatches_confidence_bounds {c : FileColumn} {fields : List QlikField}
    {m : MatchCandidate} (h : m ∈ findBestMatchesUltraAggressive c fields) :
    0 ≤ m.confidence ∧ m.confidence ≤ 1 := by
  rcases mem_findBestMatches h with ⟨g, _, _, rfl⟩
  exact ⟨calculateUltraAggressiveMatchScore_confidence_nonneg c g,
    calculateUltraAggressiveMatchScore_confidence_le_one c g⟩

/-! ### Summary aggregation lemmas -/

theorem summaryStep_of_mapped (acc : MappingSummary × ℚ) (e : Str × Suggestion)
    (he : (e.2.qlikField.isSome && decide (e.2.confidence > 0)) = true) :
    (summaryStep acc e).1.totalColumns = acc.1.totalColumns ∧
    (summaryStep acc e).1.mappedColumns = acc.1.mappedColumns + 1 ∧
    (summaryStep acc e).1.unmappedColumns = acc.1.unmappedColumns ∧
    (summaryStep acc e).2 = acc.2 + e.2.confidence := by
  unfold summaryStep
  rw [if_pos he]
  dsimp only
  split_ifs <;> simp

theorem summaryStep_of_unmapped (acc : MappingSummary × ℚ) (e : Str × Suggestion)
    (he : (e.2.qlikField.isSome && decide (e.2.confidence > 0)) = false) :
    (summaryStep acc e).1.totalColumns = acc.1.totalColumns ∧
    (summaryStep acc e).1.mappedColumns = acc.1.mappedColumns ∧
    (summaryStep acc e).1.unmappedColumns = acc.1.unmappedColumns + 1 ∧
    (summaryStep acc e).2 = acc.2 := by
  unfold summaryStep
  rw [if_neg (by simp [he])]
  exact ⟨rfl, rfl, rfl, rfl⟩

theorem length_filter_add_length_filter_not {α : Type} (l : List α) (p : α → Bool) :
    (l.filter p).length + (l.filter (fun a => !(p a))).length = l.length := by
  induction l with
  | nil => rfl
  | cons x xs ih =>
    by_cases h : p x = true
    · rw [List.filter_cons, List.filter_cons, if_pos h, if_neg (by simp [h])]
      simp only [List.length_cons]
      omega
    · rw [Bool.not_eq_true] at h
      rw [List.filter_cons, List.filter_cons, if_neg (by simp [h]), if_pos (by simp [h])]
      simp only [List.length_cons]
      omega

theorem summaryStep_foldl (l : List (Str × Suggestion)) :
    ∀ acc : MappingSummary × ℚ,
      (l.foldl summaryStep acc).1.totalColumns = acc.1.totalColumns ∧
      (l.foldl summaryStep acc).1.mappedColumns = acc.1.mappedColumns +
        (l.filter (fun e => e.2.qlikField.isSome && decide (e.2.confidence > 0))).length ∧
      (l.foldl summaryStep acc).1.unmappedColumns = acc.1.unmappedColumns +
        (l.filter (fun e =>
          !(e.2.qlikField.isSome && decide (e.2.confidence > 0)))).length ∧
      (l.foldl summaryStep acc).2 = acc.2 +
        ((l.filter (fun e => e.2.qlikField.isSome && decide (e.2.confidence > 0))).map
          (fun e => e.2.confidence)).sum := by
  induction l with
  | nil => intro acc; simp
  | cons e rest ih =>
    intro acc
    rw [List.foldl_cons]
    obtain ⟨ih1, ih2, ih3, ih4⟩ := ih (summaryStep acc e)
    by_cases he : (e.2.qlikField.isSome && decide (e.2.confidence > 0)) = true
    · obtain ⟨hs1, hs2, hs3, hs4⟩ := summaryStep_of_mapped acc e he
      refine ⟨by rw [ih1, hs1], ?_, ?_, ?_⟩
      · rw [ih2, hs2, List.filter_cons, if_pos he]
        simp [Nat.add_comm, Nat.add_assoc, Nat.add_left_comm]
      · rw [ih3, hs3, List.filter_cons, if_neg (by simp [he])]
      · rw [ih4, hs4, List.filter_cons, if_pos he]
        simp [add_comm, add_assoc, add_left_comm]
    · rw [Bool.not_eq_true] at he
      obtain ⟨hs1, hs2, hs3, hs4⟩ := summaryStep_of_unmapped acc e he
      refine ⟨by rw [ih1, hs1], ?_, ?_, ?_⟩
      · rw [ih2, hs2, List.filter_cons, if_neg (by simp [he])]
      · rw [ih3, hs3, List.filter_cons, if_pos (by simp [he])]
        simp [Nat.add_comm, Nat.add_assoc, Nat.add_left_comm]
      · rw [ih4, hs4, List.filter_cons, if_neg (by simp [he])]

/-! ### Claim theorems -/

/-- Claim C7: for every malformed input, a missing (null or undefined) or
non-array source-column list or target-field list, generateMappingSuggestions
returns the empty mapping object; the embedding is a total function, so no
exception can be raised. -/
theorem C7_generateMappingSuggestions_malformed (fcs : JsArrayInput FileColumn)
    (qfs : JsArrayInput QlikField)
    (h : fcs = JsArrayInput.nullish ∨ fcs = JsArrayInput.nonArray ∨
      qfs = JsArrayInput.nullish ∨ qfs = JsArrayInput.nonArray) :
    generateMappingSuggestions fcs qfs = [] := by
  rcases h with rfl | rfl | rfl | rfl
  · rfl
  · rfl
  · cases fcs <;> rfl
  · cases fcs <;> rfl

/-- Witness for C7 at a concrete malformed input. -/
theorem C7_generateMappingSuggestions_malformed_witness :
    generateMappingSuggestions JsArrayInput.nonArray
      (JsArrayInput.arr ([] : List QlikField)) = [] :=
  C7_generateMappingSuggestions_malformed _ _ (Or.inr (Or.inl rfl))

/-- Claim C9 (amended): for nonempty distinct names, the edit-distance fuzzy
strategy computes the normalised Levenshtein similarity
1 - distance / max(len a, len b), then multiplies it by 1.3 (a 30 percent
boost) and caps at 1; the strategy feeds into the scorer whenever this boosted
value beats the running best, with no 0.5 similarity threshold. -/
theorem C9_calculateUltraFuzzyScore_formula (a b : Str) (ha : a ≠ []) (hb : b ≠ [])
    (hab : a ≠ b) :
    calculateUltraFuzzyScore a b =
      min ((1 - (levenshteinDistance a b : ℚ) / ((max a.length b.length : ℕ) : ℚ))
        * (13/10)) 1 := by
  simp only [calculateUltraFuzzyScore]
  rw [if_neg (by simp [ha, hb]), if_neg hab]
  by_cases h : a.length > b.length
  · simp only [if_pos h]
    have hmax : max a.length b.length = a.length := by omega
    have hlen : ¬ a.length = 0 := by
      intro hh
      exact ha (List.length_eq_zero.mp hh)
    rw [if_neg hlen, hmax]
    have hq : ((a.length : ℕ) : ℚ) ≠ 0 := by exact_mod_cast hlen
    congr 1
    congr 1
    field_simp
  · simp only [if_neg h]
    have hmax : max a.length b.length = b.length := by omega
    have hlen : ¬ b.length = 0 := by
      intro hh
      exact hb (List.length_eq_zero.mp hh)
    rw [if_neg hlen, hmax, levenshteinDistance_comm b a]
    have hq : ((b.length : ℕ) : ℚ) ≠ 0 := by exact_mod_cast hlen
    congr 1
    congr 1
    field_simp

/-- Witness for C9 at concrete names ab and ax. -/
theorem C9_calculateUltraFuzzyScore_formula_witness :
    calculateUltraFuzzyScore (("ab").toList) (("ax").toList) =
      min ((1 - (levenshteinDistance (("ab").toList) (("ax").toList) : ℚ) /
        ((max (("ab").toList).length (("ax").toList).length : ℕ) : ℚ)) * (13/10)) 1 :=
  C9_calculateUltraFuzzyScore_formula _ _ (by decide) (by decide) (by decide)

/-- Counterexample for C9 as stated: in the scorer, the fuzzy strategy fires
and determines the outcome for the pair (qqqq, qx) whose normalised
similarity is 0.25, well below the claimed 0.5 threshold, and the returned
confidence 13/40 is the boosted value, not the similarity itself. -/
theorem C9_counterexample :
    (calculateUltraAggressiveMatchScore
      { name := ("qqqq").toList, type := ("text").toList }
      { name := ("qx").toList, type := ("text").toList }).matchType =
        ("ultra_fuzzy").toList ∧
    (calculateUltraAggressiveMatchScore
      { name := ("qqqq").toList, type := ("text").toList }
      { name := ("qx").toList, type := ("text").toList }).confidence = 13/40 ∧
    1 - (levenshteinDistance (("qqqq").toList) (("qx").toList) : ℚ) /
      ((max (("qqqq").toList).length (("qx").toList).length : ℕ) : ℚ) = 1/4 ∧
    ¬ ((1 : ℚ)/4 > 1/2) := by
  decide

/-- Claim C8 (amended): generateMappingSummary counts every entry exactly once
(total equals length, mapped plus unmapped equals total), and
averageConfidence is the arithmetic mean of confidences over the entries that
carry a non-null target field AND a strictly positive confidence (0 when
there are none); a mapped entry with confidence 0 is counted as unmapped and
excluded from the mean. -/
theorem C8_generateMappingSummary_stats (s : List (Str × Suggestion)) :
    (generateMappingSummary s).totalColumns = s.length ∧
    (generateMappingSummary s).mappedColumns + (generateMappingSummary s).unmappedColumns
      = s.length ∧
    (generateMappingSummary s).mappedColumns =
      (s.filter (fun e => e.2.qlikField.isSome && decide (e.2.confidence > 0))).length ∧
    (generateMappingSummary s).averageConfidence =
      (if (s.filter (fun e => e.2.qlikField.isSome && decide (e.2.confidence > 0))).length = 0
       then 0
       else ((s.filter (fun e => e.2.qlikField.isSome
          && decide (e.2.confidence > 0))).map (fun e => e.2.confidence)).sum /
         (((s.filter (fun e => e.2.qlikField.isSome
          && decide (e.2.confidence > 0))).length : ℕ) : ℚ)) := by
  obtain ⟨h1, h2, h3, h4⟩ := summaryStep_foldl s
    ({ totalColumns := s.length, mappedColumns := 0, unmappedColumns := 0,
       highConfidenceColumns := 0, mediumConfidenceColumns := 0,
       lowConfidenceColumns := 0, averageConfidence := 0 }, 0)
  unfold generateMappingSummary
  dsimp only
  rw [h1, h2, h3, h4]
  dsimp only
  simp only [Nat.zero_add, zero_add]
  refine ⟨by trivial, length_filter_add_length_filter_not s _, by trivial, ?_⟩
  by_cases hq : (s.filter (fun e => e.2.qlikField.isSome
      && decide (e.2.confidence > 0))).length = 0
  · rw [if_neg (by omega), if_pos hq]
  · rw [if_pos (Nat.pos_of_ne_zero hq), if_neg hq]

/-- Counterexample for C8 as stated: on a suggestion set with a mapped entry
of confidence 0, the summary reports average 4/5 while the arithmetic mean of
the confidences of the entries with a non-null target field is 2/5: the
zero-confidence mapped entry is counted as unmapped and excluded. -/
theorem C8_counterexample :
    (generateMappingSummary zeroConfPair).averageConfidence = 4/5 ∧
    ((zeroConfPair.filter (fun e => e.2.qlikField.isSome)).map
      (fun e => e.2.confidence)).sum /
      (((zeroConfPair.filter (fun e => e.2.qlikField.isSome)).length : ℕ) : ℚ) = 2/5 ∧
    ¬ ((4:ℚ)/5 = 2/5) := by decide

/-! ### The scorer on empty names (claim C6) -/

theorem jsIncludes_nil_needle (hay : Str) : jsIncludes hay [] = true := by
  cases hay <;> rfl

theorem countCommonCharacters_nil_left (q : Str) : countCommonCharacters [] q = 0 := rfl

theorem countCommonCharacters_nil_right (f : Str) : countCommonCharacters f [] = 0 := by
  simp [countCommonCharacters]

theorem calculateUltraFuzzyScore_empty (a b : Str) (h : a = [] ∨ b = []) :
    calculateUltraFuzzyScore a b = 0 := by
  rcases h with rfl | rfl <;> simp [calculateUltraFuzzyScore]

theorem ultraStrategyCascade_of_empty (f q : Str) (h : f = [] ∨ q = []) :
    ultraStrategyCascade f q =
      (19/20, ("contains").toList, ("Name contains match").toList) := by
  have hcont : (jsIncludes f q || jsIncludes q f) = true := by
    rcases h with rfl | rfl
    · rw [jsIncludes_nil_needle]
      simp
    · rw [jsIncludes_nil_needle]
      simp
  have hccc : countCommonCharacters f q = 0 := by
    rcases h with rfl | rfl
    · exact countCommonCharacters_nil_left q
    · exact countCommonCharacters_nil_right f
  simp only [ultraStrategyCascade]
  rw [if_pos hcont]
  rw [strategyMax_of_le ((19 : ℚ)/20, ("contains").toList, ("Name contains match").toList)
    _ _ _ (le_trans (calculateUltraSwimmingMatch_bounds f q).2 (by norm_num))]
  rw [shortNameStep_of_zero f q _ hccc]
  rw [strategyMax_of_le ((19 : ℚ)/20, ("contains").toList, ("Name contains match").toList)
    _ _ _ (le_trans (calculateUltraWordMatch_bounds f q).2 (by norm_num))]
  rw [strategyMax_of_le ((19 : ℚ)/20, ("contains").toList, ("Name contains match").toList)
    _ _ _ (le_trans (calculatePositionalMatch_bounds f q).2 (by norm_num))]
  rw [strategyMax_of_le ((19 : ℚ)/20, ("contains").toList, ("Name contains match").toList)
    _ _ _ (le_trans (calculateAdvancedPhoneticMatch_bounds f q).2 (by norm_num))]
  rw [strategyMax_of_le ((19 : ℚ)/20, ("contains").toList, ("Name contains match").toList)
    _ _ _ (le_trans (calculateCharacterFrequencyMatch_bounds f q).2 (by norm_num))]
  rw [strategyMax_of_le ((19 : ℚ)/20, ("contains").toList, ("Name contains match").toList)
    _ _ _ (le_trans (calculateLengthSimilarity_bounds f q).2 (by norm_num))]
  rw [strategyMax_of_le ((19 : ℚ)/20, ("contains").toList, ("Name contains match").toList)
    _ _ _ (by rw [calculateUltraFuzzyScore_empty f q h]; norm_num)]

/-- Claim C6 (amended): on a pair in which at least one normalised name is
empty, the scorer never returns confidence 0 with kind none: if the names
normalise equally (both empty) it returns confidence 1 with kind exact;
otherwise the empty string is a substring of the other name, so the
containment strategy fires and the result is kind contains with confidence
0.95 scaled by the type-compatibility factor. -/
theorem C6_calculateUltraAggressiveMatchScore_empty_name (c : FileColumn) (qf : QlikField)
    (h : normName c.name = [] ∨ normName qf.name = []) :
    calculateUltraAggressiveMatchScore c qf =
      (if normName c.name = normName qf.name then
        { confidence := 1, matchType := ("exact").toList,
          reason := ("Exact name match").toList }
      else
        { confidence := 19/20 * getUltraTypeCompatibility c.type qf.type,
          matchType := ("contains").toList,
          reason := ("Name contains match").toList }) := by
  by_cases heq : normName c.name = normName qf.name
  · rw [if_pos heq]
    exact calculateUltraAggressiveMatchScore_exact c qf heq
  · rw [if_neg heq]
    obtain ⟨hκ1, hκ2⟩ := getUltraTypeCompatibility_bounds c.type qf.type
    unfold calculateUltraAggressiveMatchScore
    rw [if_neg heq, ultraStrategyCascade_of_empty _ _ h]
    dsimp only
    have h20 : (19 : ℚ)/20 * getUltraTypeCompatibility c.type qf.type > 1/20 := by nlinarith
    rw [if_pos h20]
    have hmax : max ((19 : ℚ)/20 * getUltraTypeCompatibility c.type qf.type) (1/4) =
        19/20 * getUltraTypeCompatibility c.type qf.type := max_eq_left (by nlinarith)
    rw [hmax]
    have hboost : applyUltraSwimmingBoosts (normName c.name) (normName qf.name)
        (19/20 * getUltraTypeCompatibility c.type qf.type) =
        min (19/20 * getUltraTypeCompatibility c.type qf.type) 1 := by
      refine applyUltraSwimmingBoosts_no_hit _ _ _ ?_
      rcases h with hh | hh
      · rw [hh]
        exact ultraBoostRows_no_hit_left _
      · rw [hh]
        exact ultraBoostRows_no_hit_right _
    rw [hboost]
    have hmin : min ((19 : ℚ)/20 * getUltraTypeCompatibility c.type qf.type) 1 =
        19/20 * getUltraTypeCompatibility c.type qf.type := min_eq_left (by nlinarith)
    rw [hmin]
    have hnlt : ¬ ((19 : ℚ)/20 * getUltraTypeCompatibility c.type qf.type < 1/10) := by
      nlinarith
    split
    · rename_i hc
      exfalso
      simp only [Bool.and_eq_true, decide_eq_true_eq] at hc
      exact hnlt hc.1.1
    · rw [hmin]

/-- Witness for C6 at the empty column name against field abc. -/
theorem C6_calculateUltraAggressiveMatchScore_empty_name_witness :
    calculateUltraAggressiveMatchScore
      { name := ("").toList, type := ("text").toList }
      { name := ("abc").toList, type := ("text").toList } =
      (if normName (("").toList) = normName (("abc").toList) then
        { confidence := 1, matchType := ("exact").toList,
          reason := ("Exact name match").toList }
      else
        { confidence := 19/20 * getUltraTypeCompatibility (("text").toList) (("text").toList),
          matchType := ("contains").toList,
          reason := ("Name contains match").toList }) :=
  C6_calculateUltraAggressiveMatchScore_empty_name _ _ (Or.inl (by decide))

/-- Counterexample for C6 as stated: the empty column name against the field
abc scores confidence 0.95 with kind contains, not confidence 0 with kind
none. -/
theorem C6_counterexample :
    calculateUltraAggressiveMatchScore
      { name := ("").toList, type := ("text").toList }
      { name := ("abc").toList, type := ("text").toList } =
      { confidence := 19/20, matchType := ("contains").toList,
        reason := ("Name contains match").toList } ∧
    ¬ ((19 : ℚ)/20 = 0) := by
  decide

/-! ### Confidence bounds through the three phases (claim C4) -/

theorem phase1Step_good (fields : List QlikField) (st : EngineState) (c : FileColumn)
    (hg : ∀ e ∈ st.1, 0 ≤ e.2.confidence ∧ e.2.confidence ≤ 1 ∧
      (e.2.qlikField = none → e.2.confidence = 1/10)) :
    ∀ e ∈ (phase1Step fields st c).1, 0 ≤ e.2.confidence ∧ e.2.confidence ≤ 1 ∧
      (e.2.qlikField = none → e.2.confidence = 1/10) := by
  simp only [phase1Step]
  split
  · exact hg
  · rename_i topMatch restMatches hA
    have htop : topMatch ∈ findBestMatchesUltraAggressive c fields := by
      refine List.mem_of_mem_filter (p := fun m => !memStr st.2 m.field.name) ?_
      rw [hA]
      exact List.mem_cons_self _ _
    have hb := findBestMatches_confidence_bounds htop
    split
    · intro e he
      rcases mem_objSet _ _ _ e he with rfl | hmem
      · refine ⟨hb.1, hb.2, ?_⟩
        intro hnone
        simp at hnone
      · exact hg e hmem
    · exact hg

theorem phase2Step_good (fields : List QlikField) (st : EngineState) (c : FileColumn)
    (hg : ∀ e ∈ st.1, 0 ≤ e.2.confidence ∧ e.2.confidence ≤ 1 ∧
      (e.2.qlikField = none → e.2.confidence = 1/10)) :
    ∀ e ∈ (phase2Step fields st c).1, 0 ≤ e.2.confidence ∧ e.2.confidence ≤ 1 ∧
      (e.2.qlikField = none → e.2.confidence = 1/10) := by
  simp only [phase2Step]
  split
  · exact hg
  · split
    · exact hg
    · rename_i topMatch restMatches hA
      have htop : topMatch ∈ findBestMatchesUltraAggressive c fields := by
        refine List.mem_of_mem_filter (p := fun m => !memStr st.2 m.field.name) ?_
        rw [hA]
        exact List.mem_cons_self _ _
      have hb := findBestMatches_confidence_bounds htop
      split
      · intro e he
        rcases mem_objSet _ _ _ e he with rfl | hmem
        · refine ⟨le_trans (by norm_num) (le_max_right _ _),
            max_le hb.2 (by norm_num), ?_⟩
          intro hnone
          simp at hnone
        · exact hg e hmem
      · exact hg

theorem phase3Step_good (fields : List QlikField) (st : EngineState) (c : FileColumn)
    (hg : ∀ e ∈ st.1, 0 ≤ e.2.confidence ∧ e.2.confidence ≤ 1 ∧
      (e.2.qlikField = none → e.2.confidence = 1/10)) :
    ∀ e ∈ (phase3Step fields st c).1, 0 ≤ e.2.confidence ∧ e.2.confidence ≤ 1 ∧
      (e.2.qlikField = none → e.2.confidence = 1/10) := by
  simp only [phase3Step]
  split
  · exact hg
  · split
    · split
      · rename_i selectedField hS
        intro e he
        rcases mem_objSet _ _ _ e he with rfl | hmem
        · refine ⟨by norm_num, by norm_num, ?_⟩
          intro hnone
          simp at hnone
        · exact hg e hmem
      · exact hg
    · intro e he
      rcases mem_objSet _ _ _ e he with rfl | hmem
      · exact ⟨by norm_num [createUltraAggressiveFallback],
          by norm_num [createUltraAggressiveFallback], fun _ => rfl⟩
      · exact hg e hmem

/-- Claim C4 (amended): in every assignment set produced by
generateMappingSuggestions, every confidence lies in the interval from 0 to
1, and an entry with a null target field carries the placeholder confidence
0.1 of createUltraAggressiveFallback, not 0. -/
theorem C4_generateMappingSuggestions_confidence_bounds (cols : List FileColumn)
    (fields : List QlikField) :
    ∀ e ∈ generateMappingSuggestions (JsArrayInput.arr cols) (JsArrayInput.arr fields),
      0 ≤ e.2.confidence ∧ e.2.confidence ≤ 1 ∧
        (e.2.qlikField = none → e.2.confidence = 1/10) := by
  unfold generateMappingSuggestions runPhase
  refine foldl_preserve
    (P := fun st : EngineState => ∀ e ∈ st.1, 0 ≤ e.2.confidence ∧ e.2.confidence ≤ 1 ∧
      (e.2.qlikField = none → e.2.confidence = 1/10)) _ _ _ ?_ ?_
  · refine foldl_preserve
      (P := fun st : EngineState => ∀ e ∈ st.1, 0 ≤ e.2.confidence ∧ e.2.confidence ≤ 1 ∧
        (e.2.qlikField = none → e.2.confidence = 1/10)) _ _ _ ?_ ?_
    · refine foldl_preserve
        (P := fun st : EngineState => ∀ e ∈ st.1, 0 ≤ e.2.confidence ∧ e.2.confidence ≤ 1 ∧
          (e.2.qlikField = none → e.2.confidence = 1/10)) _ _ _ ?_ ?_
      · intro e he
        simp at he
      · intro s x _ hs
        exact phase1Step_good fields s x hs
    · intro s x _ hs
      exact phase2Step_good fields s x hs
  · intro s x _ hs
    exact phase3Step_good fields s x hs

/-- Witness for C4 at a one-column, one-field input whose single entry is the
exact match at confidence 1. -/
theorem C4_generateMappingSuggestions_confidence_bounds_witness :
    (((("time").toList,
      ({ qlikField := some { name := ("time").toList, type := ("text").toList },
         confidence := 1, matchType := ("exact").toList, alternatives := [],
         reason := ("Exact name match").toList } : Suggestion)) : Str × Suggestion) ∈
      generateMappingSuggestions
        (JsArrayInput.arr ([{ name := ("time").toList, type := ("text").toList }] :
          List FileColumn))
        (JsArrayInput.arr ([{ name := ("time").toList, type := ("text").toList }] :
          List QlikField))) ∧
    (0 ≤ (1 : ℚ) ∧ (1 : ℚ) ≤ 1 ∧
      ((some { name := ("time").toList, type := ("text").toList } : Option QlikField) = none →
        (1 : ℚ) = 1/10)) :=
  ⟨by decide,
   C4_generateMappingSuggestions_confidence_bounds
     [{ name := ("time").toList, type := ("text").toList }]
     [{ name := ("time").toList, type := ("text").toList }]
     ((("time").toList,
       { qlikField := some { name := ("time").toList, type := ("text").toList },
         confidence := 1, matchType := ("exact").toList, alternatives := [],
         reason := ("Exact name match").toList }))
     (by decide)⟩

/-- Counterexample for C4 as stated: with columns time and timed against the
single field time, the column timed ends with a null target field whose
confidence is the placeholder 0.1, not 0. -/
theorem C4_counterexample :
    objGet (generateMappingSuggestions
        (JsArrayInput.arr [{ name := ("time").toList, type := ("text").toList },
          { name := ("timed").toList, type := ("text").toList }])
        (JsArrayInput.arr [{ name := ("time").toList, type := ("text").toList }]))
      (("timed").toList) =
      some { qlikField := none,
             confidence := 1/10,
             matchType := ("ultra_aggressive_null").toList,
             alternatives := [],
             reason := ("No available Qlik fields remaining - all fields have been assigned").toList } ∧
    ¬ ((1 : ℚ)/10 = 0) := by
  decide

/-! ### Exact-name matching in Phase 1 (claim C3) -/

/-- **C3** (amended): Phase 1 maps a column to its exact-named field only when
the field is still available at the moment the column is processed.  For one
phase1Step: if column c and field f have identical names case-insensitively,
every other field scores strictly below 1 against c, and f has not yet been
consumed, then the step maps c to f with confidence 1 and match type exact.
The claimed priority ordering does not exist: columns are processed in input
order, so an earlier column's weaker match can consume f first (see the
counterexample). -/
theorem C3_phase1Step_exact_match (fields : List QlikField) (st : EngineState)
    (c : FileColumn) (f : QlikField)
    (hf : f ∈ fields)
    (hname : normName c.name = normName f.name)
    (hlt : ∀ g ∈ fields, g ≠ f → (calculateUltraAggressiveMatchScore c g).confidence < 1)
    (hfree : memStr st.2 f.name = false) :
    ∃ s, objGet (phase1Step fields st c).1 c.name = some s ∧
      s.qlikField = some f ∧ s.confidence = 1 ∧ s.matchType = ("exact").toList := by
  have hscore := calculateUltraAggressiveMatchScore_exact c f hname
  have hcand : ({ field := f, confidence := 1,
                  matchType := ("exact").toList,
                  reason := ("Exact name match").toList } : MatchCandidate) ∈
      findBestMatchesUltraAggressive c fields := by
    unfold findBestMatchesUltraAggressive
    refine (perm_sortDescBy (fun x : MatchCandidate => x.confidence) _).mem_iff.mpr ?_
    refine List.mem_filterMap.mpr ⟨f, hf, ?_⟩
    dsimp only
    rw [hscore]
    norm_num
  have hcandAv : ({ field := f, confidence := 1,
                    matchType := ("exact").toList,
                    reason := ("Exact name match").toList } : MatchCandidate) ∈
      List.filter (fun m => !memStr st.2 m.field.name)
        (findBestMatchesUltraAggressive c fields) := by
    refine List.mem_filter.mpr ⟨hcand, ?_⟩
    simp [hfree]
  have hsortedAll : (findBestMatchesUltraAggressive c fields).Pairwise
      (fun a b : MatchCandidate => b.confidence ≤ a.confidence) := by
    unfold findBestMatchesUltraAggressive
    exact sorted_sortDescBy _ _
  have hsorted : (List.filter (fun m => !memStr st.2 m.field.name)
      (findBestMatchesUltraAggressive c fields)).Pairwise
      (fun a b : MatchCandidate => b.confidence ≤ a.confidence) :=
    hsortedAll.sublist (List.filter_sublist _)
  simp only [phase1Step]
  split
  · rename_i hA
    rw [hA] at hcandAv
    cases hcandAv
  · rename_i topMatch restMatches hA
    have htopmem : topMatch ∈ findBestMatchesUltraAggressive c fields := by
      refine List.mem_of_mem_filter (p := fun m => !memStr st.2 m.field.name) ?_
      rw [hA]
      exact List.mem_cons_self _ _
    rcases mem_findBestMatches htopmem with ⟨g, hg, _, htopeq⟩
    have hge1 : (1 : ℚ) ≤ topMatch.confidence := by
      rw [hA] at hcandAv hsorted
      rcases List.mem_cons.mp hcandAv with heq | hmem
      · rw [← heq]
      · exact (List.pairwise_cons.mp hsorted).1 _ hmem
    have hle1 : topMatch.confidence ≤ 1 := (findBestMatches_confidence_bounds htopmem).2
    have hconf1 : topMatch.confidence = 1 := le_antisymm hle1 hge1
    have hgf : g = f := by
      by_contra hne
      have hlt1 := hlt g hg hne
      rw [htopeq] at hconf1
      dsimp at hconf1
      rw [hconf1] at hlt1
      exact lt_irrefl _ hlt1
    have htopf : topMatch = { field := f, confidence := 1,
                              matchType := ("exact").toList,
                              reason := ("Exact name match").toList } := by
      rw [htopeq, hgf, hscore]
    have h12 : topMatch.confidence > 1/2 := by
      rw [hconf1]
      norm_num
    rw [if_pos h12]
    exact ⟨_, objGet_objSet_same st.1 c.name _, by rw [htopf], hconf1, by rw [htopf]⟩

theorem C3_phase1Step_exact_match_witness :
    ∃ s, objGet (phase1Step [⟨("time").toList, ("text").toList⟩]
        ([], []) ⟨("time").toList, ("text").toList⟩).1 (("time").toList) = some s ∧
      s.qlikField = some ⟨("time").toList, ("text").toList⟩ ∧ s.confidence = 1 ∧
      s.matchType = ("exact").toList :=
  C3_phase1Step_exact_match [⟨("time").toList, ("text").toList⟩] ([], [])
    ⟨("time").toList, ("text").toList⟩ ⟨("time").toList, ("text").toList⟩
    (by decide) (by decide) (by decide) (by decide)

/-- Counterexample for C3 as stated: with columns [tim, time] and the single
field time, Phase 1 processes tim first, which consumes the field time with a
39/40 fuzzy score, so the exact-named column time ends Phase 1 unmapped. -/
theorem C3_counterexample :
    objGet (runPhase phase1Step [⟨("time").toList, ("text").toList⟩]
      [⟨("tim").toList, ("text").toList⟩, ⟨("time").toList, ("text").toList⟩]
      ([], [])).1 (("time").toList) = none := by
  decide

/-! ### Idempotence of the validator (claim C5) -/

theorem validate_fold_id (l : List (Str × Suggestion)) :
    ∀ (m : List (Str × Suggestion)) (used : List Str),
    (∀ e ∈ l, ∃ q, e.2.qlikField = some q ∧ memStr used q.name = false) →
    l.Pairwise (fun e1 e2 => mappedName e1.2 ≠ mappedName e2.2) →
    (l.foldl validateStep (m, used)).1 = m := by
  induction l with
  | nil =>
    intro m used _ _
    rfl
  | cons e rest ih =>
    intro m used hav hpw
    rcases hav e (List.mem_cons_self _ _) with ⟨q, hq, hfree⟩
    have hstep : validateStep (m, used) e = (m, q.name :: used) := by
      simp [validateStep, hq, hfree]
    rw [List.foldl_cons, hstep]
    apply ih
    · intro e2 he2
      rcases hav e2 (List.mem_cons_of_mem _ he2) with ⟨q2, hq2, hfree2⟩
      refine ⟨q2, hq2, ?_⟩
      have hne : mappedName e.2 ≠ mappedName e2.2 := (List.pairwise_cons.mp hpw).1 e2 he2
      have hqne : q.name ≠ q2.name := by
        intro hcontra
        apply hne
        simp [mappedName, hq, hq2, hcontra]
      refine memStr_eq_false_iff.mpr ?_
      intro hmem
      rcases List.mem_cons.mp hmem with heq | hmem2
      · exact hqne heq.symm
      · exact memStr_eq_false_iff.mp hfree2 hmem2
    · exact (List.pairwise_cons.mp hpw).2

theorem validate_id_of_distinct (y : List (Str × Suggestion)) (fc : List FileColumn)
    (qf : List QlikField)
    (hdist : (y.filter (fun e => e.2.qlikField.isSome)).Pairwise
      (fun e1 e2 => mappedName e1.2 ≠ mappedName e2.2)) :
    validateMappingSuggestions y fc qf = y := by
  unfold validateMappingSuggestions
  apply validate_fold_id
  · intro e he
    have hmem := (perm_sortDescBy (fun e : Str × Suggestion => e.2.confidence) _).mem_iff.mp he
    have hsome := (List.mem_filter.mp hmem).2
    rcases Option.isSome_iff_exists.mp (by exact_mod_cast hsome) with ⟨q, hq⟩
    exact ⟨q, hq, rfl⟩
  · refine ((perm_sortDescBy (fun e : Str × Suggestion => e.2.confidence) _).pairwise_iff
      ?_).mpr hdist
    intro a b h
    exact h.symm

/-- **C5** (amended): the validator is idempotent on every suggestion set
whose first validation pass leaves the mapped entries with pairwise distinct
target field names; on such a result every entry of the second pass takes the
no-conflict branch, which leaves the object untouched.  It is not idempotent
in general, because a kept conflict entry is discounted again on every pass
(see the counterexample). -/
theorem C5_validateMappingSuggestions_idempotent (x : List (Str × Suggestion))
    (fc fc2 : List FileColumn) (qf qf2 : List QlikField)
    (hdist : ((validateMappingSuggestions x fc qf).filter
        (fun e => e.2.qlikField.isSome)).Pairwise
      (fun e1 e2 => mappedName e1.2 ≠ mappedName e2.2)) :
    validateMappingSuggestions (validateMappingSuggestions x fc qf) fc2 qf2 =
      validateMappingSuggestions x fc qf :=
  validate_id_of_distinct _ fc2 qf2 hdist

theorem C5_validateMappingSuggestions_idempotent_witness :
    ((validateMappingSuggestions zeroConfPair [] []).filter
        (fun e => e.2.qlikField.isSome)).Pairwise
      (fun e1 e2 => mappedName e1.2 ≠ mappedName e2.2) ∧
    validateMappingSuggestions (validateMappingSuggestions zeroConfPair [] []) [] [] =
      validateMappingSuggestions zeroConfPair [] [] :=
  ⟨by decide, C5_validateMappingSuggestions_idempotent zeroConfPair [] [] [] [] (by decide)⟩

/-- Counterexample for C5 as stated: on the conflicted pair both entries keep
the same field after one pass, so the second pass discounts the kept conflict
again (0.56 becomes 0.392) and the result changes. -/
theorem C5_counterexample :
    validateMappingSuggestions (validateMappingSuggestions conflictedPair [] []) [] [] ≠
      validateMappingSuggestions conflictedPair [] [] := by
  decide

/-! ### Uniqueness of target fields across the phases (claim C10) -/

theorem memStr_cons_of_mem (a x : Str) (used : List Str) (h : memStr used x = true) :
    memStr (a :: used) x = true :=
  memStr_iff.mpr (List.mem_cons_of_mem a (memStr_iff.mp h))

theorem mappedNe_symm (a b : Str × Suggestion)
    (h : ∀ n, mappedName a.2 = some n → mappedName b.2 ≠ some n) :
    ∀ n, mappedName b.2 = some n → mappedName a.2 ≠ some n :=
  fun n hb ha => h n ha hb

theorem pairwise_objSet {R : (Str × Suggestion) → (Str × Suggestion) → Prop}
    (hsym : ∀ a b, R a b → R b a) :
    ∀ (m : List (Str × Suggestion)) (k : Str) (v : Suggestion),
    m.Pairwise R → (∀ e ∈ m, R e (k, v)) → (objSet m k v).Pairwise R := by
  intro m
  induction m with
  | nil =>
    intro k v _ _
    rw [objSet]
    exact List.pairwise_singleton _ _
  | cons e1 rest ih =>
    obtain ⟨k1, v1⟩ := e1
    intro k v hp hv
    rw [objSet_cons]
    by_cases h : k1 = k
    · rw [if_pos h]
      refine List.pairwise_cons.mpr ⟨?_, (List.pairwise_cons.mp hp).2⟩
      intro e2 he2
      exact hsym _ _ (hv e2 (List.mem_cons_of_mem _ he2))
    · rw [if_neg h]
      refine List.pairwise_cons.mpr ⟨?_, ?_⟩
      · intro e2 he2
        rcases mem_objSet rest k v e2 he2 with rfl | hmem
        · exact hv (k1, v1) (List.mem_cons_self _ _)
        · exact (List.pairwise_cons.mp hp).1 e2 hmem
      · exact ih k v (List.pairwise_cons.mp hp).2
          (fun e he => hv e (List.mem_cons_of_mem _ he))

theorem find_chain_mem (av : List QlikField) (pfs : List Str) :
    ∀ (acc : Option QlikField), (∀ g, acc = some g → g ∈ av) →
    ∀ g, pfs.foldl (fun acc2 pf =>
        match acc2 with
        | some f => some f
        | none => av.find? (fun field => jsIncludes (jsToLower field.name) pf)) acc = some g →
    g ∈ av := by
  induction pfs with
  | nil =>
    intro acc hacc g hg
    exact hacc g hg
  | cons pf rest ih =>
    intro acc hacc g hg
    rw [List.foldl_cons] at hg
    refine ih _ ?_ g hg
    intro g2 hg2
    cases acc with
    | some f => exact hacc g2 hg2
    | none => exact List.mem_of_find?_eq_some hg2

theorem priority_chain_mem (av : List QlikField) (fileName : Str)
    (prs : List (List Str × List Str)) :
    ∀ (acc : Option QlikField), (∀ g, acc = some g → g ∈ av) →
    ∀ g, prs.foldl (fun acc pr =>
        match acc with
        | some f => some f
        | none =>
          if testAny fileName pr.1 then
            pr.2.foldl (fun acc2 pf =>
              match acc2 with
              | some f => some f
              | none => av.find? (fun field => jsIncludes (jsToLower field.name) pf)) none
          else none) acc = some g →
    g ∈ av := by
  induction prs with
  | nil =>
    intro acc hacc g hg
    exact hacc g hg
  | cons pr rest ih =>
    intro acc hacc g hg
    rw [List.foldl_cons] at hg
    refine ih _ ?_ g hg
    intro g2 hg2
    cases acc with
    | some f => exact hacc g2 hg2
    | none =>
      have hg3 : (if testAny fileName pr.1 then
          pr.2.foldl (fun acc2 pf =>
            match acc2 with
            | some f => some f
            | none => av.find? (fun field => jsIncludes (jsToLower field.name) pf)) none
          else none) = some g2 := hg2
      split at hg3
      · exact find_chain_mem av pr.2 none (fun g4 hg4 => by cases hg4) g2 hg3
      · cases hg3

theorem selectBestRemainingField_mem (c : FileColumn) (av : List QlikField) (f : QlikField)
    (h : selectBestRemainingField c av = some f) : f ∈ av := by
  simp only [selectBestRemainingField] at h
  split at h
  · rename_i g hpri
    cases h
    exact priority_chain_mem av (jsToLower c.name) forcePriorities none
      (fun g2 hg2 => by cases hg2) f hpri
  · rename_i hpri
    exact List.mem_of_mem_head? (Option.mem_def.mpr h)

theorem phase1Step_inv (fields : List QlikField) (st : EngineState) (c : FileColumn)
    (h : PhaseInv st) : PhaseInv (phase1Step fields st c) := by
  obtain ⟨h1, h2⟩ := h
  unfold PhaseInv
  simp only [phase1Step]
  split
  · exact ⟨h1, h2⟩
  · rename_i topMatch restMatches hA
    split
    · have htopfree : memStr st.2 topMatch.field.name = false := by
        have hmem : topMatch ∈ List.filter (fun m => !memStr st.2 m.field.name)
            (findBestMatchesUltraAggressive c fields) := by
          rw [hA]
          exact List.mem_cons_self _ _
        have hfil := (List.mem_filter.mp hmem).2
        simpa using hfil
      constructor
      · intro e he f hf
        rcases mem_objSet st.1 c.name _ e he with rfl | hmem
        · have hff : topMatch.field = f := Option.some.inj hf
          rw [← hff]
          exact memStr_iff.mpr (List.mem_cons_self _ _)
        · exact memStr_cons_of_mem _ _ _ (h1 e hmem f hf)
      · refine pairwise_objSet mappedNe_symm st.1 c.name _ h2 ?_
        intro e he n hn1 hn2
        have hn2a : topMatch.field.name = n := Option.some.inj hn2
        simp only [mappedName] at hn1
        rcases Option.map_eq_some'.mp hn1 with ⟨f, hfeq, hfname⟩
        have hb : memStr st.2 f.name = true := h1 e he f hfeq
        rw [hfname, ← hn2a] at hb
        rw [hb] at htopfree
        exact Bool.noConfusion htopfree
    · exact ⟨h1, h2⟩

theorem phase2Step_inv (fields : List QlikField) (st : EngineState) (c : FileColumn)
    (h : PhaseInv st) : PhaseInv (phase2Step fields st c) := by
  obtain ⟨h1, h2⟩ := h
  unfold PhaseInv
  simp only [phase2Step]
  split
  · exact ⟨h1, h2⟩
  · split
    · exact ⟨h1, h2⟩
    · rename_i topMatch restMatches hA
      split
      · have htopfree : memStr st.2 topMatch.field.name = false := by
          have hmem : topMatch ∈ List.filter (fun m => !memStr st.2 m.field.name)
              (findBestMatchesUltraAggressive c fields) := by
            rw [hA]
            exact List.mem_cons_self _ _
          have hfil := (List.mem_filter.mp hmem).2
          simpa using hfil
        constructor
        · intro e he f hf
          rcases mem_objSet st.1 c.name _ e he with rfl | hmem
          · have hff : topMatch.field = f := Option.some.inj hf
            rw [← hff]
            exact memStr_iff.mpr (List.mem_cons_self _ _)
          · exact memStr_cons_of_mem _ _ _ (h1 e hmem f hf)
        · refine pairwise_objSet mappedNe_symm st.1 c.name _ h2 ?_
          intro e he n hn1 hn2
          have hn2a : topMatch.field.name = n := Option.some.inj hn2
          simp only [mappedName] at hn1
          rcases Option.map_eq_some'.mp hn1 with ⟨f, hfeq, hfname⟩
          have hb : memStr st.2 f.name = true := h1 e he f hfeq
          rw [hfname, ← hn2a] at hb
          rw [hb] at htopfree
          exact Bool.noConfusion htopfree
      · exact ⟨h1, h2⟩

theorem phase3Step_inv (fields : List QlikField) (st : EngineState) (c : FileColumn)
    (h : PhaseInv st) : PhaseInv (phase3Step fields st c) := by
  obtain ⟨h1, h2⟩ := h
  unfold PhaseInv
  simp only [phase3Step]
  split
  · exact ⟨h1, h2⟩
  · split
    · split
      · rename_i selectedField hsel
        have hselav : selectedField ∈ fields.filter (fun field => !memStr st.2 field.name) :=
          selectBestRemainingField_mem c _ _ hsel
        have hfree : memStr st.2 selectedField.name = false := by
          have hfil := (List.mem_filter.mp hselav).2
          simpa using hfil
        constructor
        · intro e he f hf
          rcases mem_objSet st.1 c.name _ e he with rfl | hmem
          · have hff : selectedField = f := Option.some.inj hf
            rw [← hff]
            exact memStr_iff.mpr (List.mem_cons_self _ _)
          · exact memStr_cons_of_mem _ _ _ (h1 e hmem f hf)
        · refine pairwise_objSet mappedNe_symm st.1 c.name _ h2 ?_
          intro e he n hn1 hn2
          have hn2a : selectedField.name = n := Option.some.inj hn2
          simp only [mappedName] at hn1
          rcases Option.map_eq_some'.mp hn1 with ⟨f, hfeq, hfname⟩
          have hb : memStr st.2 f.name = true := h1 e he f hfeq
          rw [hfname, ← hn2a] at hb
          rw [hb] at hfree
          exact Bool.noConfusion hfree
      · exact ⟨h1, h2⟩
    · constructor
      · intro e he f hf
        rcases mem_objSet st.1 c.name _ e he with rfl | hmem
        · exact Option.noConfusion hf
        · exact h1 e hmem f hf
      · refine pairwise_objSet mappedNe_symm st.1 c.name _ h2 ?_
        intro e he n hn1 hn2
        exact Option.noConfusion hn2

/-- **C10**: the assignment set returned by generateMappingSuggestions already
satisfies target-field uniqueness before any validation pass: no two entries
with non-null target fields share the same target field name, because every
phase filters candidates through and then extends the shared used-fields
set. -/
theorem C10_generateMappingSuggestions_unique (fcs : JsArrayInput FileColumn)
    (qfs : JsArrayInput QlikField) :
    (generateMappingSuggestions fcs qfs).Pairwise
      (fun e1 e2 => ∀ n, mappedName e1.2 = some n → mappedName e2.2 ≠ some n) := by
  cases fcs with
  | nullish => exact List.Pairwise.nil
  | nonArray => exact List.Pairwise.nil
  | arr cols =>
    cases qfs with
    | nullish => exact List.Pairwise.nil
    | nonArray => exact List.Pairwise.nil
    | arr fields =>
      have hinv : PhaseInv (runPhase phase3Step fields cols
          (runPhase phase2Step fields cols
            (runPhase phase1Step fields cols ([], [])))) := by
        unfold runPhase
        refine foldl_preserve _ cols _ ?_ ?_
        · refine foldl_preserve _ cols _ ?_ ?_
          · refine foldl_preserve _ cols _ ?_ ?_
            · exact ⟨fun e he f hf => absurd he (List.not_mem_nil e), List.Pairwise.nil⟩
            · intro s x _ hs
              exact phase1Step_inv fields s x hs
          · intro s x _ hs
            exact phase2Step_inv fields s x hs
        · intro s x _ hs
          exact phase3Step_inv fields s x hs
      exact hinv.2

/-! ### Totality of the engine output (claim C2) -/

theorem mem_keysOf_objSet {β : Type} (m : List (Str × β)) (k : Str) (v : β) :
    ∀ k2 ∈ keysOf (objSet m k v), k2 ∈ keysOf m ∨ k2 = k := by
  intro k2 h2
  rw [keysOf_objSet] at h2
  split at h2
  · exact Or.inl h2
  · rcases List.mem_append.mp h2 with h3 | h3
    · exact Or.inl h3
    · exact Or.inr (List.mem_singleton.mp h3)

theorem objGet_isSome_objSet {β : Type} (m : List (Str × β)) (k k2 : Str) (v : β)
    (h : (objGet m k2).isSome = true) : (objGet (objSet m k v) k2).isSome = true := by
  by_cases hk : k2 = k
  · rw [hk, objGet_objSet_same]
    rfl
  · rw [objGet_objSet_other m k k2 v hk]
    exact h

theorem phase1Step_keys (fields : List QlikField) (st : EngineState) (c : FileColumn) :
    (phase1Step fields st c).1 = st.1 ∨
    ∃ v, (phase1Step fields st c).1 = objSet st.1 c.name v := by
  simp only [phase1Step]
  split
  · exact Or.inl rfl
  · split
    · exact Or.inr ⟨_, rfl⟩
    · exact Or.inl rfl

theorem phase2Step_keys (fields : List QlikField) (st : EngineState) (c : FileColumn) :
    (phase2Step fields st c).1 = st.1 ∨
    ∃ v, (phase2Step fields st c).1 = objSet st.1 c.name v := by
  simp only [phase2Step]
  split
  · exact Or.inl rfl
  · split
    · exact Or.inl rfl
    · split
      · exact Or.inr ⟨_, rfl⟩
      · exact Or.inl rfl

theorem phase3Step_keys (fields : List QlikField) (st : EngineState) (c : FileColumn) :
    (phase3Step fields st c).1 = st.1 ∨
    ∃ v, (phase3Step fields st c).1 = objSet st.1 c.name v := by
  simp only [phase3Step]
  split
  · exact Or.inl rfl
  · split
    · split
      · exact Or.inr ⟨_, rfl⟩
      · exact Or.inl rfl
    · exact Or.inr ⟨_, rfl⟩

theorem selectBestRemainingField_ne_none (c : FileColumn) (av : List QlikField)
    (h : av.length > 0) : selectBestRemainingField c av ≠ none := by
  intro hc
  simp only [selectBestRemainingField] at hc
  split at hc
  · exact Option.noConfusion hc
  · cases av with
    | nil => simp at h
    | cons a rest => exact Option.noConfusion hc

theorem phase3Step_isSome (fields : List QlikField) (st : EngineState) (c : FileColumn) :
    (objGet (phase3Step fields st c).1 c.name).isSome = true := by
  simp only [phase3Step]
  split
  · rename_i hs
    exact hs
  · split
    · rename_i hlen
      split
      · rw [objGet_objSet_same]
        rfl
      · rename_i hsel
        exact absurd hsel (selectBestRemainingField_ne_none c _ hlen)
    · rw [objGet_objSet_same]
      rfl

theorem isSome_of_shape {st : EngineState} {c : FileColumn}
    {res : List (Str × Suggestion)} {k : Str}
    (h : res = st.1 ∨ ∃ v, res = objSet st.1 c.name v)
    (hk : (objGet st.1 k).isSome = true) : (objGet res k).isSome = true := by
  rcases h with rfl | ⟨v, hv⟩
  · exact hk
  · rw [hv]
    exact objGet_isSome_objSet st.1 c.name k v hk

theorem shape_keys_prop {cols : List FileColumn} {st : EngineState} {x : FileColumn}
    {res : List (Str × Suggestion)}
    (h : res = st.1 ∨ ∃ v, res = objSet st.1 x.name v) (hx : x ∈ cols)
    (hs : (∀ k ∈ keysOf st.1, k ∈ cols.map FileColumn.name) ∧ (keysOf st.1).Nodup) :
    (∀ k ∈ keysOf res, k ∈ cols.map FileColumn.name) ∧ (keysOf res).Nodup := by
  rcases h with rfl | ⟨v, hv⟩
  · exact hs
  · rw [hv]
    constructor
    · intro k hk
      rcases mem_keysOf_objSet st.1 x.name v k hk with hk1 | rfl
      · exact hs.1 k hk1
      · exact List.mem_map.mpr ⟨x, hx, rfl⟩
    · exact keysOf_objSet_nodup st.1 x.name v hs.2

theorem fold3_covers (fields : List QlikField) :
    ∀ (cols : List FileColumn) (st : EngineState) (c : FileColumn), c ∈ cols →
    (objGet (cols.foldl (phase3Step fields) st).1 c.name).isSome = true := by
  intro cols
  induction cols with
  | nil =>
    intro st c hc
    cases hc
  | cons x rest ih =>
    intro st c hc
    rw [List.foldl_cons]
    rcases List.mem_cons.mp hc with rfl | hmem
    · refine @foldl_preserve EngineState FileColumn
        (fun s => (objGet s.1 c.name).isSome = true) (phase3Step fields) rest _ ?_ ?_
      · exact phase3Step_isSome fields st c
      · intro s y _ hs
        exact isSome_of_shape (phase3Step_keys fields s y) hs
    · exact ih _ c hmem

/-- **C2**: for every input whose source columns carry pairwise distinct
names, generateMappingSuggestions returns exactly one entry per source
column: the object has exactly n entries when there are n columns, and every
column name is present, assigned either a target field or the null
fallback. -/
theorem C2_generateMappingSuggestions_totality (cols : List FileColumn)
    (fields : List QlikField) (hnd : (cols.map FileColumn.name).Nodup) :
    (generateMappingSuggestions (JsArrayInput.arr cols) (JsArrayInput.arr fields)).length
      = cols.length ∧
    ∀ c ∈ cols, (objGet (generateMappingSuggestions (JsArrayInput.arr cols)
      (JsArrayInput.arr fields)) c.name).isSome = true := by
  have hcov : ∀ c ∈ cols, (objGet (generateMappingSuggestions (JsArrayInput.arr cols)
      (JsArrayInput.arr fields)) c.name).isSome = true := by
    intro c hc
    exact fold3_covers fields cols _ c hc
  have hkeys : (∀ k ∈ keysOf (generateMappingSuggestions (JsArrayInput.arr cols)
      (JsArrayInput.arr fields)), k ∈ cols.map FileColumn.name) ∧
      (keysOf (generateMappingSuggestions (JsArrayInput.arr cols)
        (JsArrayInput.arr fields))).Nodup := by
    unfold generateMappingSuggestions runPhase
    refine foldl_preserve
      (P := fun st : EngineState => (∀ k ∈ keysOf st.1, k ∈ cols.map FileColumn.name) ∧
        (keysOf st.1).Nodup) _ _ _ ?_ ?_
    · refine foldl_preserve
        (P := fun st : EngineState => (∀ k ∈ keysOf st.1, k ∈ cols.map FileColumn.name) ∧
          (keysOf st.1).Nodup) _ _ _ ?_ ?_
      · refine foldl_preserve
          (P := fun st : EngineState => (∀ k ∈ keysOf st.1, k ∈ cols.map FileColumn.name) ∧
            (keysOf st.1).Nodup) _ _ _ ?_ ?_
        · exact ⟨fun k hk => absurd hk (List.not_mem_nil k), List.nodup_nil⟩
        · intro s x hx hs
          exact shape_keys_prop (phase1Step_keys fields s x) hx hs
      · intro s x hx hs
        exact shape_keys_prop (phase2Step_keys fields s x) hx hs
    · intro s x hx hs
      exact shape_keys_prop (phase3Step_keys fields s x) hx hs
  have hsub2 : cols.map FileColumn.name ⊆ keysOf (generateMappingSuggestions
      (JsArrayInput.arr cols) (JsArrayInput.arr fields)) := by
    intro k hk
    rcases List.mem_map.mp hk with ⟨c, hc, rfl⟩
    exact (objGet_isSome_iff_mem _ c.name).mp (hcov c hc)
  refine ⟨?_, hcov⟩
  have hlen1 := (hkeys.2.subperm (fun k hk => hkeys.1 k hk)).length_le
  have hlen2 := (hnd.subperm hsub2).length_le
  have hfin := le_antisymm hlen1 hlen2
  simp only [keysOf, List.length_map] at hfin
  exact hfin

theorem C2_generateMappingSuggestions_totality_witness :
    (([⟨("time").toList, ("text").toList⟩] : List FileColumn).map FileColumn.name).Nodup ∧
    ((generateMappingSuggestions (JsArrayInput.arr [⟨("time").toList, ("text").toList⟩])
        (JsArrayInput.arr [⟨("time").toList, ("text").toList⟩])).length = 1 ∧
     ∀ c ∈ ([⟨("time").toList, ("text").toList⟩] : List FileColumn),
       (objGet (generateMappingSuggestions
           (JsArrayInput.arr [⟨("time").toList, ("text").toList⟩])
           (JsArrayInput.arr [⟨("time").toList, ("text").toList⟩]))
         c.name).isSome = true) :=
  ⟨by decide, C2_generateMappingSuggestions_totality
    [⟨("time").toList, ("text").toList⟩] [⟨("time").toList, ("text").toList⟩] (by decide)⟩

/-! ### Conflict marking by the validator (claim C1) -/

theorem not_mem_keys_cons {p : Str × Suggestion} {rest : List (Str × Suggestion)} {x : Str}
    (h1 : x ≠ p.1) (h2 : x ∉ keysOf rest) : x ∉ keysOf (p :: rest) := by
  rw [keysOf_cons]
  intro hmem
  rcases List.mem_cons.mp hmem with h3 | h3
  · exact h1 h3
  · exact h2 h3

theorem mem_objSet_nodup {β : Type} :
    ∀ (m : List (Str × β)) (k : Str) (v : β), (keysOf m).Nodup →
    ∀ e ∈ objSet m k v, e = (k, v) ∨ (e ∈ m ∧ e.1 ≠ k) := by
  intro m
  induction m with
  | nil =>
    intro k v _ e he
    rw [objSet] at he
    exact Or.inl (List.mem_singleton.mp he)
  | cons e1 rest ih =>
    obtain ⟨k1, v1⟩ := e1
    intro k v hnd e he
    rw [keysOf_cons, List.nodup_cons] at hnd
    rw [objSet_cons] at he
    by_cases h : k1 = k
    · rw [if_pos h] at he
      rcases List.mem_cons.mp he with h1 | h1
      · exact Or.inl h1
      · refine Or.inr ⟨List.mem_cons_of_mem _ h1, ?_⟩
        intro hek
        apply hnd.1
        rw [h, ← hek]
        exact List.mem_map.mpr ⟨e, h1, rfl⟩
    · rw [if_neg h] at he
      rcases List.mem_cons.mp he with rfl | h1
      · exact Or.inr ⟨List.mem_cons_self _ _, h⟩
      · rcases ih k v hnd.2 e h1 with h2 | ⟨h3, h4⟩
        · exact Or.inl h2
        · exact Or.inr ⟨List.mem_cons_of_mem _ h3, h4⟩

theorem pairwise_objSet_nodup {R : (Str × Suggestion) → (Str × Suggestion) → Prop}
    (hsym : ∀ a b, R a b → R b a) :
    ∀ (m : List (Str × Suggestion)) (k : Str) (v : Suggestion), (keysOf m).Nodup →
    m.Pairwise (fun e1 e2 => e1.1 ≠ k → e2.1 ≠ k → R e1 e2) →
    (∀ e ∈ m, e.1 ≠ k → R e (k, v)) →
    (objSet m k v).Pairwise R := by
  intro m
  induction m with
  | nil =>
    intro k v _ _ _
    rw [objSet]
    exact List.pairwise_singleton _ _
  | cons e1 rest ih =>
    obtain ⟨k1, v1⟩ := e1
    intro k v hnd hp hv
    rw [keysOf_cons, List.nodup_cons] at hnd
    rw [objSet_cons]
    by_cases h : k1 = k
    · rw [if_pos h]
      refine List.pairwise_cons.mpr ⟨?_, ?_⟩
      · intro e2 he2
        have hek : e2.1 ≠ k := by
          intro hh
          apply hnd.1
          rw [h, ← hh]
          exact List.mem_map.mpr ⟨e2, he2, rfl⟩
        exact hsym _ _ (hv e2 (List.mem_cons_of_mem _ he2) hek)
      · refine (List.pairwise_cons.mp hp).2.imp_of_mem ?_
        intro a b ha hb hab
        have hak : a.1 ≠ k := by
          intro hh
          apply hnd.1
          rw [h, ← hh]
          exact List.mem_map.mpr ⟨a, ha, rfl⟩
        have hbk : b.1 ≠ k := by
          intro hh
          apply hnd.1
          rw [h, ← hh]
          exact List.mem_map.mpr ⟨b, hb, rfl⟩
        exact hab hak hbk
    · rw [if_neg h]
      refine List.pairwise_cons.mpr ⟨?_, ?_⟩
      · intro e2 he2
        rcases mem_objSet_nodup rest k v hnd.2 e2 he2 with rfl | ⟨h3, h4⟩
        · exact hv (k1, v1) (List.mem_cons_self _ _) h
        · exact (List.pairwise_cons.mp hp).1 e2 h3 h h4
      · exact ih k v hnd.2 (List.pairwise_cons.mp hp).2
          (fun e he hek => hv e (List.mem_cons_of_mem _ he) hek)

theorem validate_fold_pairwise :
    ∀ (l m : List (Str × Suggestion)) (used : List Str),
    (keysOf m).Nodup →
    (∀ p ∈ l, objGet m p.1 = some p.2) →
    (keysOf l).Nodup →
    (∀ e ∈ m, e.1 ∉ keysOf l → ∀ f, e.2.qlikField = some f →
      e.2.reason ≠ conflictReason → memStr used f.name = true) →
    m.Pairwise (fun e1 e2 => e1.1 ∉ keysOf l → e2.1 ∉ keysOf l →
      ∀ n, mappedName e1.2 = some n → mappedName e2.2 = some n →
        e1.2.reason = conflictReason ∨ e2.2.reason = conflictReason) →
    (l.foldl validateStep (m, used)).1.Pairwise
      (fun e1 e2 => ∀ n, mappedName e1.2 = some n → mappedName e2.2 = some n →
        e1.2.reason = conflictReason ∨ e2.2.reason = conflictReason) := by
  intro l
  induction l with
  | nil =>
    intro m used _ _ _ _ hpw
    refine hpw.imp ?_
    intro a b hab
    exact hab (List.not_mem_nil _) (List.not_mem_nil _)
  | cons p rest ih =>
    obtain ⟨k, s0⟩ := p
    intro m used hndm hl hndl hm hpw
    have hget : objGet m k = some s0 := hl (k, s0) (List.mem_cons_self _ _)
    rw [keysOf_cons, List.nodup_cons] at hndl
    have huniq : ∀ s2, (k, s2) ∈ m → s2 = s0 := by
      intro s2 hmem
      exact Option.some.inj ((objGet_of_mem_nodup m k s2 hndm hmem).symm.trans hget)
    rw [List.foldl_cons]
    cases hq : s0.qlikField with
    | none =>
      have hstep : validateStep (m, used) (k, s0) = (m, used) := by
        simp [validateStep, hq]
      rw [hstep]
      apply ih
      · exact hndm
      · intro p2 hp2
        exact hl p2 (List.mem_cons_of_mem _ hp2)
      · exact hndl.2
      · intro e he hkey f hf hr
        obtain ⟨ek, ev⟩ := e
        by_cases hek : ek = k
        · have hev : ev = s0 := huniq ev (hek ▸ he)
          rw [hev, hq] at hf
          exact absurd hf (by simp)
        · exact hm (ek, ev) he (not_mem_keys_cons hek hkey) f hf hr
      · refine hpw.imp_of_mem ?_
        intro a b ha hb hab hanotr hbnotr n hna hnb
        obtain ⟨ak, av⟩ := a
        by_cases hak : ak = k
        · have hav : av = s0 := huniq av (hak ▸ ha)
          simp only [mappedName] at hna
          rw [hav, hq] at hna
          exact absurd hna (by simp)
        · obtain ⟨bk, bv⟩ := b
          by_cases hbk : bk = k
          · have hbv : bv = s0 := huniq bv (hbk ▸ hb)
            simp only [mappedName] at hnb
            rw [hbv, hq] at hnb
            exact absurd hnb (by simp)
          · exact hab (not_mem_keys_cons hak hanotr) (not_mem_keys_cons hbk hbnotr)
              n hna hnb
    | some q =>
      cases hu : memStr used q.name with
      | false =>
        have hstep : validateStep (m, used) (k, s0) = (m, q.name :: used) := by
          simp [validateStep, hq, hu]
        rw [hstep]
        have hkeydist : m.Pairwise (fun e1 e2 => e1.1 ≠ e2.1) :=
          List.pairwise_map.mp hndm
        apply ih
        · exact hndm
        · intro p2 hp2
          exact hl p2 (List.mem_cons_of_mem _ hp2)
        · exact hndl.2
        · intro e he hkey f hf hr
          obtain ⟨ek, ev⟩ := e
          by_cases hek : ek = k
          · have hev : ev = s0 := huniq ev (hek ▸ he)
            rw [hev, hq] at hf
            have hfq : q = f := Option.some.inj hf
            rw [← hfq]
            exact memStr_iff.mpr (List.mem_cons_self _ _)
          · exact memStr_cons_of_mem _ _ _
              (hm (ek, ev) he (not_mem_keys_cons hek hkey) f hf hr)
        · refine (hpw.and hkeydist).imp_of_mem ?_
          intro a b ha hb hab hanotr hbnotr n hna hnb
          obtain ⟨ak, av⟩ := a
          obtain ⟨bk, bv⟩ := b
          by_cases hak : ak = k
          · have hav : av = s0 := huniq av (hak ▸ ha)
            have hbk : bk ≠ k := by
              intro hh
              exact hab.2 (hak.trans hh.symm)
            simp only [mappedName] at hna
            rw [hav, hq] at hna
            have hnq : q.name = n := by
              rw [Option.map_some'] at hna
              exact Option.some.inj hna
            by_cases hbr : bv.reason = conflictReason
            · exact Or.inr hbr
            · exfalso
              simp only [mappedName] at hnb
              rcases Option.map_eq_some'.mp hnb with ⟨g, hg, hgname⟩
              have hbused : memStr used g.name = true :=
                hm (bk, bv) hb (not_mem_keys_cons hbk hbnotr) g hg hbr
              rw [hgname, ← hnq] at hbused
              rw [hu] at hbused
              exact Bool.noConfusion hbused
          · by_cases hbk : bk = k
            · have hbv : bv = s0 := huniq bv (hbk ▸ hb)
              simp only [mappedName] at hnb
              rw [hbv, hq] at hnb
              have hnq : q.name = n := by
                rw [Option.map_some'] at hnb
                exact Option.some.inj hnb
              by_cases har : av.reason = conflictReason
              · exact Or.inl har
              · exfalso
                simp only [mappedName] at hna
                rcases Option.map_eq_some'.mp hna with ⟨g, hg, hgname⟩
                have haused : memStr used g.name = true :=
                  hm (ak, av) ha (not_mem_keys_cons hak hanotr) g hg har
                rw [hgname, ← hnq] at haused
                rw [hu] at haused
                exact Bool.noConfusion haused
            · exact hab.1 (not_mem_keys_cons hak hanotr) (not_mem_keys_cons hbk hbnotr)
                n hna hnb
      | true =>
        cases halt : s0.alternatives.filter (fun alt => !memStr used alt.field.name) with
        | cons altTop altRest =>
          have haltfree : memStr used altTop.field.name = false := by
            have hmemf : altTop ∈ s0.alternatives.filter
                (fun alt => !memStr used alt.field.name) := by
              rw [halt]
              exact List.mem_cons_self _ _
            have h2 := (List.mem_filter.mp hmemf).2
            simpa using h2
          have hstep : validateStep (m, used) (k, s0) =
              (objSet m k { s0 with
                            qlikField := some altTop.field,
                            confidence := max (altTop.confidence * (9/10)) (3/10),
                            reason := ("Alternative mapping (conflict resolved)").toList },
               altTop.field.name :: used) := by
            simp [validateStep, hq, hu, halt]
          rw [hstep]
          apply ih
          · rw [keysOf_objSet, if_pos (by rw [hget]; rfl)]
            exact hndm
          · intro p2 hp2
            have hkne : p2.1 ≠ k := by
              intro hh
              apply hndl.1
              rw [← hh]
              exact List.mem_map.mpr ⟨p2, hp2, rfl⟩
            rw [objGet_objSet_other m k p2.1 _ hkne]
            exact hl p2 (List.mem_cons_of_mem _ hp2)
          · exact hndl.2
          · intro e he hkey f hf hr
            rcases mem_objSet m k _ e he with rfl | hmem
            · have hff : altTop.field = f := Option.some.inj hf
              rw [← hff]
              exact memStr_iff.mpr (List.mem_cons_self _ _)
            · obtain ⟨ek, ev⟩ := e
              by_cases hek : ek = k
              · have hev : ev = s0 := huniq ev (hek ▸ hmem)
                rw [hev, hq] at hf
                have hfq : q = f := Option.some.inj hf
                rw [← hfq]
                exact memStr_cons_of_mem _ _ _ hu
              · exact memStr_cons_of_mem _ _ _
                  (hm (ek, ev) hmem (not_mem_keys_cons hek hkey) f hf hr)
          · refine pairwise_objSet_nodup ?_ m k _ hndm ?_ ?_
            · intro a b hab hbnotr hanotr n hnb hna
              exact (hab hanotr hbnotr n hna hnb).symm
            · refine hpw.imp_of_mem ?_
              intro a b ha hb hab hak hbk hanotr hbnotr
              exact hab (not_mem_keys_cons hak hanotr) (not_mem_keys_cons hbk hbnotr)
            · intro e he hek hanotr hbnotr n hna hnb
              have hnb2 : altTop.field.name = n := by
                simp only [mappedName, Option.map_some'] at hnb
                exact Option.some.inj hnb
              obtain ⟨ek, ev⟩ := e
              by_cases her : ev.reason = conflictReason
              · exact Or.inl her
              · exfalso
                simp only [mappedName] at hna
                rcases Option.map_eq_some'.mp hna with ⟨g, hg, hgname⟩
                have hused : memStr used g.name = true :=
                  hm (ek, ev) he (not_mem_keys_cons hek hanotr) g hg her
                rw [hgname, ← hnb2] at hused
                rw [hused] at haltfree
                exact Bool.noConfusion haltfree
        | nil =>
          have hstep : validateStep (m, used) (k, s0) =
              (objSet m k { s0 with
                            confidence := max (s0.confidence * (7/10)) (1/4),
                            reason := conflictReason },
               used) := by
            simp [validateStep, hq, hu, halt]
          rw [hstep]
          apply ih
          · rw [keysOf_objSet, if_pos (by rw [hget]; rfl)]
            exact hndm
          · intro p2 hp2
            have hkne : p2.1 ≠ k := by
              intro hh
              apply hndl.1
              rw [← hh]
              exact List.mem_map.mpr ⟨p2, hp2, rfl⟩
            rw [objGet_objSet_other m k p2.1 _ hkne]
            exact hl p2 (List.mem_cons_of_mem _ hp2)
          · exact hndl.2
          · intro e he hkey f hf hr
            rcases mem_objSet m k _ e he with rfl | hmem
            · exact absurd rfl hr
            · obtain ⟨ek, ev⟩ := e
              by_cases hek : ek = k
              · have hev : ev = s0 := huniq ev (hek ▸ hmem)
                rw [hev, hq] at hf
                have hfq : q = f := Option.some.inj hf
                rw [← hfq]
                exact hu
              · exact hm (ek, ev) hmem (not_mem_keys_cons hek hkey) f hf hr
          · refine pairwise_objSet_nodup ?_ m k _ hndm ?_ ?_
            · intro a b hab hbnotr hanotr n hnb hna
              exact (hab hanotr hbnotr n hna hnb).symm
            · refine hpw.imp_of_mem ?_
              intro a b ha hb hab hak hbk hanotr hbnotr
              exact hab (not_mem_keys_cons hak hanotr) (not_mem_keys_cons hbk hbnotr)
            · intro e he hek hanotr hbnotr n hna hnb
              exact Or.inr rfl

/-- **C1** (amended): after validateMappingSuggestions runs on a suggestion
set with pairwise distinct keys, any two entries that still carry the same
non-null target field name include at least one entry marked as an unresolved
conflict (reason "Conflict detected - shared field assignment").  Uniqueness
of target fields does not hold unconditionally: when no alternative is free,
the duplicate assignment is kept (see the counterexample). -/
theorem C1_validateMappingSuggestions_flagged (x : List (Str × Suggestion))
    (fc : List FileColumn) (qf : List QlikField) (hnd : (keysOf x).Nodup) :
    (validateMappingSuggestions x fc qf).Pairwise
      (fun e1 e2 => ∀ n, mappedName e1.2 = some n → mappedName e2.2 = some n →
        e1.2.reason = conflictReason ∨ e2.2.reason = conflictReason) := by
  unfold validateMappingSuggestions
  apply validate_fold_pairwise
  · exact hnd
  · intro p hp
    have hpx : p ∈ x := List.mem_of_mem_filter
      ((perm_sortDescBy (fun e : Str × Suggestion => e.2.confidence) _).mem_iff.mp hp)
    obtain ⟨pk, pv⟩ := p
    exact objGet_of_mem_nodup x pk pv hnd hpx
  · have h1 : (keysOf (x.filter (fun e => e.2.qlikField.isSome))).Nodup := by
      have hsub : (keysOf (x.filter (fun e => e.2.qlikField.isSome))).Sublist (keysOf x) :=
        (List.filter_sublist x).map Prod.fst
      exact hnd.sublist hsub
    exact (((perm_sortDescBy (fun e : Str × Suggestion => e.2.confidence) _).map
      Prod.fst).nodup_iff).mpr h1
  · intro e he hkey f hf hr
    exfalso
    apply hkey
    have hef : e ∈ x.filter (fun e2 => e2.2.qlikField.isSome) :=
      List.mem_filter.mpr ⟨he, by rw [hf]; rfl⟩
    exact List.mem_map.mpr ⟨e,
      (perm_sortDescBy (fun e2 : Str × Suggestion => e2.2.confidence) _).mem_iff.mpr hef,
      rfl⟩
  · refine List.pairwise_of_forall_mem_list ?_
    intro a ha b hb
    intro hakey hbkey n hna hnb
    exfalso
    apply hakey
    simp only [mappedName] at hna
    rcases Option.map_eq_some'.mp hna with ⟨g, hg, _⟩
    have haf : a ∈ x.filter (fun e2 => e2.2.qlikField.isSome) :=
      List.mem_filter.mpr ⟨ha, by rw [hg]; rfl⟩
    exact List.mem_map.mpr ⟨a,
      (perm_sortDescBy (fun e2 : Str × Suggestion => e2.2.confidence) _).mem_iff.mpr haf,
      rfl⟩

theorem C1_validateMappingSuggestions_flagged_witness :
    (keysOf conflictedPair).Nodup ∧
    (validateMappingSuggestions conflictedPair [] []).Pairwise
      (fun e1 e2 => ∀ n, mappedName e1.2 = some n → mappedName e2.2 = some n →
        e1.2.reason = conflictReason ∨ e2.2.reason = conflictReason) :=
  ⟨by decide, C1_validateMappingSuggestions_flagged conflictedPair [] [] (by decide)⟩

/-- Counterexample for C1 as stated: on the conflicted pair (two columns a
and b both claiming field x, no alternatives), the validator keeps both
entries on the same target field x, so distinct mapped entries can share a
target field name after validation. -/
theorem C1_counterexample :
    (objGet (validateMappingSuggestions conflictedPair [] []) (("a").toList)).map
        (fun s => mappedName s) = some (some (("x").toList)) ∧
    (objGet (validateMappingSuggestions conflictedPair [] []) (("b").toList)).map
        (fun s => mappedName s) = some (some (("x").toList)) ∧
    ("a").toList ≠ ("b").toList := by
  decide
